import Mathlib

/-!
Verification of the market-resolution and switch-control core of
`polyrust-core` (crates/polymarket-adapter): a shallow embedding of
`gamma/resolver.rs` and `gamma/switch.rs` together with the data model
of `types.rs`, plus theorems settling the specification claims.

External effects (the Gamma discovery API, the CLOB price API, the wall
clock and the monotonic clock) are modelled as oracle parameters: each
suspension point of the Rust code reads its value from the oracle, and
the embedded functions additionally return the trace of calls they
issue where a claim is about call order.
-/

namespace PM

/-- Decidable equality for `Except`, used to evaluate witnesses. -/
instance {ε α : Type} [DecidableEq ε] [DecidableEq α] : DecidableEq (Except ε α) :=
  fun a b =>
    match a, b with
    | .ok x, .ok y => if h : x = y then isTrue (by rw [h]) else isFalse (by simp [h])
    | .error x, .error y => if h : x = y then isTrue (by rw [h]) else isFalse (by simp [h])
    | .ok _, .error _ => isFalse (by simp)
    | .error _, .ok _ => isFalse (by simp)

/-! ## String helpers

Rust operates on `&str`; the embedded operations work on `String.data`
(lists of chars), which agrees with the byte view on the ASCII strings
the core manipulates. -/

/-- The `'{'` character (written via its code point). -/
def lbrace : Char := Char.ofNat 123

/-- The `'}'` character (written via its code point). -/
def rbrace : Char := Char.ofNat 125

/-- Model of Rust `str::contains(pat)` on char lists. -/
def hasInfix : List Char → List Char → Bool
  | [], pat => pat.isEmpty
  | _c :: t, pat => pat.isPrefixOf (_c :: t) || hasInfix t pat

/-- Model of Rust `str::contains(pat)`. -/
def strContains (hay pat : String) : Bool :=
  hasInfix hay.data pat.data

/-- Model of Rust `str::replace("\x7b\x7d", rep)`: replace every
(non-overlapping, left-to-right) occurrence of the two-char pattern
`\x7b\x7d` by `rep`. Specialised to this pattern because the slug
patterns of the source contain exactly that placeholder. -/
def replaceBraces : List Char → List Char → List Char
  | [], _rep => []
  | c :: rest, rep =>
    match rest with
    | [] => [c]
    | c2 :: rest2 =>
      if c = lbrace ∧ c2 = rbrace then rep ++ replaceBraces rest2 rep
      else c :: replaceBraces (c2 :: rest2) rep

/-- Decimal digit char for `d < 10` (`'0'` has code 48). -/
def decDigit (d : Nat) : Char := Char.ofNat (48 + d)

/-- Fuel-driven decimal rendering of a natural number (most significant
digit first); total and kernel-reducible. -/
def natDecGo : Nat → Nat → List Char
  | 0, _n => []
  | _fuel + 1, n =>
    if n < 10 then [decDigit n]
    else natDecGo _fuel (n / 10) ++ [decDigit (n % 10)]

/-- Decimal digits of a natural number, mirroring Rust `u64::to_string`
on the values in range. -/
def natDecimal (n : Nat) : List Char := natDecGo (n + 1) n

/-- Decimal rendering of an integer, mirroring Rust `i64::to_string`. -/
def intDecimal (i : Int) : List Char :=
  if i < 0 then Char.ofNat 45 :: natDecimal i.natAbs else natDecimal i.natAbs

/-- The `'-'` character. -/
def dashChar : Char := Char.ofNat 45

/-- Model of `slug.rsplit('-').next()`: the chars after the last `'-'`
(the whole string when it has no `'-'`). -/
def lastDashSegment (s : String) : List Char :=
  (s.data.reverse.takeWhile (fun c => c ≠ dashChar)).reverse

/-- `c` is an ASCII decimal digit. -/
def isDigitCh (c : Char) : Bool := 48 ≤ c.toNat ∧ c.toNat ≤ 57

/-- Numeric value of a digit list (most significant first). -/
def digitsVal (ds : List Char) : Nat :=
  ds.foldl (fun a c => a * 10 + (c.toNat - 48)) 0

/-- Model of Rust `<i64 as FromStr>::parse` (as used by
`extract_bucket_timestamp`): optional sign, at least one digit, all
digits, and the value must fit in `i64`. -/
def parseI64 (cs : List Char) : Option Int :=
  let (sign, ds) :=
    match cs with
    | c :: r =>
      if c = Char.ofNat 43 then ((1 : Int), r)
      else if c = dashChar then ((-1 : Int), r)
      else (1, cs)
    | [] => (1, [])
  if ds.isEmpty then none
  else if ds.all isDigitCh then
    let v : Int := sign * (digitsVal ds : Int)
    if -(2 ^ 63) ≤ v ∧ v ≤ 2 ^ 63 - 1 then some v else none
  else none

/-! ## Data model (`types.rs`) -/

/-- `GammaMarket` (`types.rs`): the discovery-API view of a market,
restricted to the fields the resolver reads. The serde `extra` map and
the unread metadata fields are not observed by the core and are omitted.
The `enable_order_book` field is read by `resolver.rs`; its declaration
is in a newer `types.rs` than the one vendored here.
Modelled from the spec: `enable_order_book` is the fourth market boolean
("four booleans: `active`, `closed`, `archived`, `enable_order_book`"). -/
structure GammaMarket where
  id : String
  slug : String
  question : String
  condition_id : String
  clob_token_ids : List String
  outcomes : List String
  outcome_prices : List String
  start_date : Option String
  end_date : Option String
  active : Bool
  closed : Bool
  archived : Bool
  enable_order_book : Bool
  deriving DecidableEq

/-- `GammaMarket::is_valid_binary` (`types.rs`). -/
def GammaMarket.isValidBinary (m : GammaMarket) : Bool :=
  m.clob_token_ids.length == 2

/-- `SelectionReason` (`types.rs`). -/
inductive SelectionReason where
  | uniqueMatchInWindow
  | ambiguousCandidates
  | noCandidates
  | clobPriceCheckFailed
  | gammaApiError
  | validationFailed
  deriving DecidableEq

/-- Rust `format!("\x7b:?\x7d", reason)` on `SelectionReason` (the
derived `Debug` prints the variant name). -/
def SelectionReason.debugStr : SelectionReason → String
  | .uniqueMatchInWindow => "UniqueMatchInWindow"
  | .ambiguousCandidates => "AmbiguousCandidates"
  | .noCandidates => "NoCandidates"
  | .clobPriceCheckFailed => "ClobPriceCheckFailed"
  | .gammaApiError => "GammaApiError"
  | .validationFailed => "ValidationFailed"

/-- `ResolvedMarket` (`types.rs`): Rust `[String; 2]` fields are pairs.
The three audit fields (`asof_utc`, `candidate_slugs`,
`bucket_start_ts`) are written by `resolver.rs`; their declaration is in
a newer `types.rs` than the one vendored here.
Modelled from the spec: "plus three audit fields: `asof_utc` (ISO-8601
of the reference time), `candidate_slugs` (ordered list of slugs that
were queried to reach the decision), and `bucket_start_ts` (Unix
seconds)". -/
structure ResolvedMarket where
  gamma_market_id : String
  condition_id : String
  clob_token_ids : String × String
  slug : String
  question : String
  start_date : String
  end_date : String
  selected_at_ms : Int
  selection_reason : SelectionReason
  outcomes : String × String
  asof_utc : String
  candidate_slugs : List String
  bucket_start_ts : Int
  deriving DecidableEq

/-- `ResolveResult` (`types.rs`). -/
inductive ResolveResult where
  | ok (market : ResolvedMarket)
  | freeze (reason : SelectionReason) (message : String) (candidates : List String)
  deriving DecidableEq

/-! ## Oracles for the external interfaces -/

/-- Result of one `GammaClient::get_market_by_slug` call: found market,
404 / empty array (`Ok(None)`), or a transport error with its display
string. -/
inductive LookupRes where
  | found (m : GammaMarket)
  | notFound
  | apiError (msg : String)
  deriving DecidableEq

/-- Discovery-API oracle: slug to lookup result. -/
def GammaOracle := String → LookupRes

/-- Result of one `RestClient::get_price` call: a JSON body, observed
only through the presence of its `"price"` field, or an error with its
display string. -/
inductive PriceRes where
  | ok (hasPriceField : Bool)
  | err (msg : String)
  deriving DecidableEq

/-- Price-API oracle: token id and `side` string to probe result. -/
def PriceOracle := String → String → PriceRes

/-! ## `MarketSeries` and `ResolverConfig` (`resolver.rs`) -/

/-- `MarketSeries` (`resolver.rs`). -/
inductive MarketSeries where
  | btc15m
  | eth15m
  deriving DecidableEq

/-- `MarketSeries::slug_patterns` (`resolver.rs`): the `\x7b\x7d`
placeholder is written via escapes. -/
def MarketSeries.slugPatterns : MarketSeries → List String
  | .btc15m => ["btc-updown-15m-\x7b\x7d", "btc-up-or-down-15m-\x7b\x7d"]
  | .eth15m => ["eth-updown-15m-\x7b\x7d", "eth-up-or-down-15m-\x7b\x7d"]

/-- `pattern.replace("\x7b\x7d", &ts.to_string())` (`resolver.rs`). -/
def instantiateSlug (pattern : String) (ts : Int) : String :=
  ⟨replaceBraces pattern.data (intDecimal ts)⟩

/-- `ResolverConfig` (`resolver.rs`). -/
structure ResolverConfig where
  bucket_size_secs : Int
  time_tolerance_secs : Int
  check_adjacent_buckets : Bool
  clob_validation : Bool
  deriving DecidableEq

/-- `ResolverConfig::default` (`resolver.rs`). -/
def defaultResolverConfig : ResolverConfig :=
  { bucket_size_secs := 900
    time_tolerance_secs := 120
    check_adjacent_buckets := true
    clob_validation := true }

/-! ## Resolver (`resolver.rs`) -/

/-- `MarketResolver::extract_bucket_timestamp` (`resolver.rs`). -/
def extractBucketTimestamp (slug : String) : Option Int :=
  parseI64 (lastDashSegment slug)

/-- `MarketResolver::validate_market` (`resolver.rs`): `Some reason`
when invalid, `none` when valid. -/
def validateMarket (cfg : ResolverConfig) (m : GammaMarket) (asofTs : Int) :
    Option SelectionReason :=
  if !m.isValidBinary then some .validationFailed
  else if !m.active || m.closed then some .validationFailed
  else if !m.enable_order_book then some .validationFailed
  else
    match extractBucketTimestamp m.slug with
    | none => some .validationFailed
    | some bucketStart =>
      if asofTs < bucketStart ||
          bucketStart + cfg.bucket_size_secs + cfg.time_tolerance_secs ≤ asofTs then
        some .validationFailed
      else none

/-- Side variants tried by `validate_clob_token` (`resolver.rs`). -/
def sideVariants : List String := ["BUY", "buy"]

/-- The 400-class test of `validate_clob_token` (`resolver.rs`). -/
def isLikely400 (msg : String) : Bool :=
  strContains msg "400" || strContains msg "Bad Request" || strContains msg "invalid"

/-- Loop body of `MarketResolver::validate_clob_token` (`resolver.rs`)
over the remaining side variants; also returns the trace of `side`
values passed to `get_price`, in call order. -/
def clobTokenGo (price : PriceOracle) (tokenId : String) :
    List String → Except String Bool × List String
  | [] => (.error ("All CLOB side variants exhausted for token " ++ tokenId), [])
  | side :: rest =>
    match price tokenId side with
    | .ok hasPrice => (if hasPrice then .ok true else .ok false, [side])
    | .err e =>
      if isLikely400 e && !rest.isEmpty then
        let r := clobTokenGo price tokenId rest
        (r.1, side :: r.2)
      else (.error e, [side])

/-- `MarketResolver::validate_clob_token` (`resolver.rs`), with the
trace of issued `get_price` sides. -/
def validateClobTokenT (price : PriceOracle) (tokenId : String) :
    Except String Bool × List String :=
  clobTokenGo price tokenId sideVariants

/-- Loop of `MarketResolver::validate_clob_tokens` (`resolver.rs`) over
the remaining token ids; also returns the `(token, side)` trace of
issued `get_price` calls, in call order. -/
def clobTokensGo (price : PriceOracle) (queried : List String) :
    List String → Option ResolveResult × List (String × String)
  | [] => (none, [])
  | t :: rest =>
    match validateClobTokenT price t with
    | (.ok true, tr) =>
      let r := clobTokensGo price queried rest
      (r.1, tr.map (fun s => (t, s)) ++ r.2)
    | (.ok false, tr) =>
      (some (.freeze .clobPriceCheckFailed
          ("CLOB price check failed for token " ++ t ++ " (no price field)") queried),
        tr.map (fun s => (t, s)))
    | (.error e, tr) =>
      (some (.freeze .clobPriceCheckFailed
          ("CLOB API error for token " ++ t ++ ": " ++ e) queried),
        tr.map (fun s => (t, s)))

/-- `MarketResolver::validate_clob_tokens` (`resolver.rs`):
`some freeze` on failure, `none` when all tokens validate; with the
`(token, side)` call trace. -/
def validateClobTokensT (price : PriceOracle) (m : GammaMarket)
    (queried : List String) : Option ResolveResult × List (String × String) :=
  clobTokensGo price queried m.clob_token_ids

/-- `MarketResolver::build_result` (`resolver.rs`). -/
def buildResult (m : GammaMarket) (asofUtc : String) (nowMs : Int)
    (bucketStart : Int) (candidateSlugs : List String) : ResolveResult :=
  match m.clob_token_ids with
  | [a, b] =>
    match m.outcomes with
    | [oa, ob] => mkOk a b oa ob
    | [] => mkOk a b "Up" "Down"
    | _ =>
      .freeze .validationFailed
        ("Unexpected outcomes count: " ++ ⟨natDecimal m.outcomes.length⟩)
        [m.slug]
  | _ =>
    .freeze .validationFailed "clobTokenIds is not exactly 2 elements" [m.slug]
where
  mkOk (a b oa ob : String) : ResolveResult :=
    .ok
      { gamma_market_id := m.id
        condition_id := m.condition_id
        clob_token_ids := (a, b)
        slug := m.slug
        question := m.question
        start_date := m.start_date.getD ""
        end_date := m.end_date.getD ""
        selected_at_ms := nowMs
        selection_reason := .uniqueMatchInWindow
        outcomes := (oa, ob)
        asof_utc := asofUtc
        candidate_slugs := candidateSlugs
        bucket_start_ts := bucketStart }

/-- The current-bucket `for slug in &current_bucket_slugs` loop of
`MarketResolver::resolve` (`resolver.rs`). Arguments: remaining slugs,
accumulated `queried_slugs` (slugs for which a market was found), and
the accumulated trace of all issued `get_market_by_slug` calls.
Returns `(some result, q, t)` on an early `return`, `(none, q, t)` when
the loop falls through. -/
def tryCurrentSlugs (gamma : GammaOracle) (price : PriceOracle)
    (cfg : ResolverConfig) (asofTs : Int) (asofUtc : String) (nowMs : Int)
    (bucketStart : Int) :
    List String → List String → List String →
      Option ResolveResult × List String × List String
  | [], q, t => (none, q, t)
  | slug :: rest, q, t =>
    match gamma slug with
    | .found mk =>
      if mk.isValidBinary && mk.active && !mk.closed && mk.enable_order_book then
        if bucketStart ≤ asofTs && asofTs < bucketStart + cfg.bucket_size_secs then
          if cfg.clob_validation then
            match (validateClobTokensT price mk (q ++ [slug])).1 with
            | some fr => (some fr, q ++ [slug], t ++ [slug])
            | none =>
              (some (buildResult mk asofUtc nowMs bucketStart (q ++ [slug])),
                q ++ [slug], t ++ [slug])
          else
            (some (buildResult mk asofUtc nowMs bucketStart (q ++ [slug])),
              q ++ [slug], t ++ [slug])
        else
          tryCurrentSlugs gamma price cfg asofTs asofUtc nowMs bucketStart rest
            (q ++ [slug]) (t ++ [slug])
      else
        tryCurrentSlugs gamma price cfg asofTs asofUtc nowMs bucketStart rest
          (q ++ [slug]) (t ++ [slug])
    | .notFound =>
      tryCurrentSlugs gamma price cfg asofTs asofUtc nowMs bucketStart rest q (t ++ [slug])
    | .apiError _ =>
      tryCurrentSlugs gamma price cfg asofTs asofUtc nowMs bucketStart rest q (t ++ [slug])

/-- The previous-bucket `for slug in &prev_bucket_slugs` loop of
`MarketResolver::resolve` (`resolver.rs`). Note: on success it builds
the result with the caller's `bucketStart` of the *asof* bucket, exactly
as the source passes `bucket_start` (not `prev_bucket`) to
`build_result`. -/
def tryPrevSlugs (gamma : GammaOracle) (price : PriceOracle)
    (cfg : ResolverConfig) (asofTs : Int) (asofUtc : String) (nowMs : Int)
    (bucketStart : Int) :
    List String → List String → List String →
      Option ResolveResult × List String × List String
  | [], q, t => (none, q, t)
  | slug :: rest, q, t =>
    match gamma slug with
    | .found mk =>
      match validateMarket cfg mk asofTs with
      | some _ =>
        tryPrevSlugs gamma price cfg asofTs asofUtc nowMs bucketStart rest
          (q ++ [slug]) (t ++ [slug])
      | none =>
        if cfg.clob_validation then
          match (validateClobTokensT price mk (q ++ [slug])).1 with
          | some fr => (some fr, q ++ [slug], t ++ [slug])
          | none =>
            (some (buildResult mk asofUtc nowMs bucketStart (q ++ [slug])),
              q ++ [slug], t ++ [slug])
        else
          (some (buildResult mk asofUtc nowMs bucketStart (q ++ [slug])),
            q ++ [slug], t ++ [slug])
    | .notFound =>
      tryPrevSlugs gamma price cfg asofTs asofUtc nowMs bucketStart rest q (t ++ [slug])
    | .apiError _ =>
      tryPrevSlugs gamma price cfg asofTs asofUtc nowMs bucketStart rest q (t ++ [slug])

/-- `bucket_start = (asof_ts / bucket_size) * bucket_size`
(`resolver.rs`): Rust `i64` division truncates toward zero, which is
`Int.div`. -/
def rustBucketStart (cfg : ResolverConfig) (asofTs : Int) : Int :=
  Int.tdiv asofTs cfg.bucket_size_secs * cfg.bucket_size_secs

/-- Current-bucket candidate slugs, in pattern order (`resolver.rs`). -/
def currentBucketSlugs (cfg : ResolverConfig) (series : MarketSeries) (asofTs : Int) :
    List String :=
  series.slugPatterns.map (fun p => instantiateSlug p (rustBucketStart cfg asofTs))

/-- Previous-bucket candidate slugs, in pattern order (`resolver.rs`). -/
def prevBucketSlugs (cfg : ResolverConfig) (series : MarketSeries) (asofTs : Int) :
    List String :=
  series.slugPatterns.map
    (fun p => instantiateSlug p (rustBucketStart cfg asofTs - cfg.bucket_size_secs))

/-- `MarketResolver::resolve` (`resolver.rs`), returning the result
together with the full trace of issued slug lookups, in call order.
`asofUtc` stands for `asof.to_rfc3339()` and `nowMs` for
`Utc::now().timestamp_millis()` read inside `build_result`. -/
def resolveT (gamma : GammaOracle) (price : PriceOracle) (cfg : ResolverConfig)
    (series : MarketSeries) (asofTs : Int) (asofUtc : String) (nowMs : Int) :
    ResolveResult × List String :=
  match tryCurrentSlugs gamma price cfg asofTs asofUtc nowMs (rustBucketStart cfg asofTs)
      (currentBucketSlugs cfg series asofTs) [] [] with
  | (some r, _, t) => (r, t)
  | (none, q, t) =>
    if cfg.check_adjacent_buckets then
      match tryPrevSlugs gamma price cfg asofTs asofUtc nowMs (rustBucketStart cfg asofTs)
          (prevBucketSlugs cfg series asofTs) q t with
      | (some r, _, t') => (r, t')
      | (none, q', t') =>
        (.freeze .noCandidates "No valid market candidates found" q', t')
    else (.freeze .noCandidates "No valid market candidates found" q, t)

/-- `MarketResolver::resolve` (`resolver.rs`), result only. -/
def resolve (gamma : GammaOracle) (price : PriceOracle) (cfg : ResolverConfig)
    (series : MarketSeries) (asofTs : Int) (asofUtc : String) (nowMs : Int) :
    ResolveResult :=
  (resolveT gamma price cfg series asofTs asofUtc nowMs).1

/-! ## Switch controller (`switch.rs`)

The controller's own type declarations (`SwitchPhase`, `SwitchAction`,
`SwitchConfig`, `SwitchStats`) live in a newer `types.rs` than the one
vendored here; they are reconstructed from their uses in `switch.rs` and
from the spec. Monotonic `Instant`s are modelled as natural-number
seconds supplied by the environment; wall-clock reads and RFC-3339
formatting/parsing are oracle parameters. -/

/-- `BUCKET_SIZE_SECS` (`switch.rs`). -/
def BUCKET_SIZE_SECS : Int := 900

/-- Modelled from the spec: `SwitchPhase` is
`Stable | Prepare | Ready | Committing` (its declaration is outside the
vendored sources; `switch.rs` uses exactly these four variants). -/
inductive SwitchPhase where
  | stable
  | prepare
  | ready
  | committing
  deriving DecidableEq

/-- Modelled from the spec: `SwitchAction` is `None`,
`SubscribeNew{tokens, slug}`, `UnsubscribeOld{tokens, slug}`,
`Freeze{reason, message}` (declaration outside the vendored sources;
`switch.rs` constructs exactly these variants, with string reasons). -/
inductive SwitchAction where
  | none
  | subscribeNew (tokens : String × String) (slug : String)
  | unsubscribeOld (tokens : String × String) (slug : String)
  | freeze (reason : String) (message : String)
  deriving DecidableEq

/-- Modelled from the spec: `SwitchConfig` carries `lead_time_secs`,
`min_consecutive`, `overlap_secs`, `poll_interval_ms`; the defaults
(90, 3, 15, 2000) are pinned by the unit test in `switch.rs`. -/
structure SwitchConfig where
  lead_time_secs : Int
  min_consecutive : Nat
  overlap_secs : Nat
  poll_interval_ms : Nat
  deriving DecidableEq

/-- `SwitchConfig::default`, per the `switch.rs` unit test. -/
def defaultSwitchConfig : SwitchConfig :=
  { lead_time_secs := 90, min_consecutive := 3, overlap_secs := 15
    poll_interval_ms := 2000 }

/-- Modelled from the spec: `SwitchStats` counters (freeze count, switch
count, last `Ready` lead seconds, last switch latency ms), per the spec
observability surface and the fields `switch.rs` updates. -/
structure SwitchStats where
  freeze_count : Nat
  switch_count : Nat
  last_ready_lead_secs : Option Int
  last_switch_latency_ms : Option Nat
  deriving DecidableEq

/-- `SwitchStats::default`. -/
def defaultSwitchStats : SwitchStats :=
  { freeze_count := 0, switch_count := 0, last_ready_lead_secs := Option.none
    last_switch_latency_ms := Option.none }

/-- `NextCandidate` (`switch.rs`); `first_seen_at` is a monotonic
instant in model seconds. -/
structure NextCandidate where
  market : ResolvedMarket
  first_seen_at : Nat
  consecutive_matches : Nat
  deriving DecidableEq

/-- `PendingUnsubscribe` (`switch.rs`). -/
structure PendingUnsubscribe where
  tokens : String × String
  slug : String
  scheduled_at : Nat
  deriving DecidableEq

/-- The mutable state of `SwitchController` (`switch.rs`), without the
resolver handle and the configs (passed separately). -/
structure CtrlState where
  phase : SwitchPhase
  current : Option ResolvedMarket
  next_candidate : Option NextCandidate
  pending_unsubscribe : Option PendingUnsubscribe
  stats : SwitchStats
  last_resolve_ok_at : Option Nat
  boundary_reached_at : Option Nat
  deriving DecidableEq

/-- The state produced by `SwitchController::new` (`switch.rs`). -/
def initialCtrlState : CtrlState :=
  { phase := .stable, current := Option.none, next_candidate := Option.none
    pending_unsubscribe := Option.none, stats := defaultSwitchStats
    last_resolve_ok_at := Option.none, boundary_reached_at := Option.none }

/-- Environment of one `init`/`poll` call: the two API oracles, the
wall-clock second (`Utc::now().timestamp()`), the wall-clock millisecond
read inside `build_result`, the monotonic instant (`Instant::now()`, in
seconds), an RFC-3339 formatting oracle (`DateTime::to_rfc3339`, applied
to the Unix second of the `DateTime` being formatted) and an RFC-3339
parsing oracle (`DateTime::parse_from_rfc3339(..).timestamp()`). -/
structure PollEnv where
  gamma : GammaOracle
  price : PriceOracle
  nowTs : Int
  nowMs : Int
  mono : Nat
  fmtRfc : Int → String
  parseRfc : String → Option Int

/-- `SwitchController::is_consistent` (`switch.rs`). -/
def isConsistent (s : CtrlState) (new : ResolvedMarket) : Bool :=
  match s.next_candidate with
  | some candidate =>
    candidate.market.slug == new.slug &&
      candidate.market.clob_token_ids == new.clob_token_ids
  | Option.none => false

/-- `SwitchController::is_monotonic_advance` (`switch.rs`). -/
def isMonotonicAdvance (s : CtrlState) (next : ResolvedMarket) : Bool :=
  match s.current with
  | some current => next.bucket_start_ts == current.bucket_start_ts + BUCKET_SIZE_SECS
  | Option.none => true

/-- `SwitchController::should_prepare_next` (`switch.rs`). -/
def shouldPrepareNext (cfg : SwitchConfig) (env : PollEnv) (s : CtrlState) : Bool :=
  match s.current with
  | Option.none => false
  | some current =>
    match env.parseRfc current.end_date with
    | Option.none => false
    | some endTs => max (endTs - env.nowTs) 0 ≤ cfg.lead_time_secs

/-- `SwitchController::is_boundary_reached` (`switch.rs`). -/
def isBoundaryReached (env : PollEnv) (s : CtrlState) : Bool :=
  match s.current with
  | Option.none => false
  | some current =>
    match env.parseRfc current.end_date with
    | Option.none => false
    | some endTs => endTs ≤ env.nowTs

/-- `SwitchController::next_bucket_asof` (`switch.rs`): Unix second of
the computed `DateTime` (`current.bucket_start_ts + 905`, or
`now + 900` without a current market). -/
def nextBucketAsof (env : PollEnv) (s : CtrlState) : Int :=
  match s.current with
  | some m => m.bucket_start_ts + 905
  | Option.none => env.nowTs + 900

/-- The 400-class test of `validate_tokens_for_commit` (`switch.rs`) —
unlike the resolver's `is_likely_400`, it does not treat `"invalid"` as
retryable. -/
def isCommit400 (msg : String) : Bool :=
  strContains msg "400" || strContains msg "Bad Request"

/-- Loop body of `SwitchController::validate_tokens_for_commit`
(`switch.rs`) over the remaining side variants, with the trace of
issued `get_price` sides. -/
def commitSidesGo (price : PriceOracle) (token : String) :
    List String → Except String Bool × List String
  | [] => (.error "All CLOB side variants failed for commit-time check", [])
  | side :: rest =>
    match price token side with
    | .ok hasPrice => (if hasPrice then .ok true else .ok false, [side])
    | .err e =>
      if isCommit400 e then
        let r := commitSidesGo price token rest
        (r.1, side :: r.2)
      else (.error e, [side])

/-- `SwitchController::validate_tokens_for_commit` (`switch.rs`): only
the first token of the pair is probed. -/
def validateTokensForCommitT (price : PriceOracle) (tokens : String × String) :
    Except String Bool × List String :=
  commitSidesGo price tokens.1 ["BUY", "buy"]

/-- `self.stats.freeze_count += 1` (`switch.rs`). -/
def bumpFreeze (s : CtrlState) : CtrlState :=
  { s with stats := { s.stats with freeze_count := s.stats.freeze_count + 1 } }

/-- The overlap unsubscribe scheduled at commit in
`SwitchController::poll_committing` (`switch.rs`): set from the old
current market when there is one, otherwise left unchanged. -/
def commitPending (env : PollEnv) (s : CtrlState) : Option PendingUnsubscribe :=
  match s.current with
  | some oldMarket => some ⟨oldMarket.clob_token_ids, oldMarket.slug, env.mono⟩
  | Option.none => s.pending_unsubscribe

/-- The `boundary_reached_at.take()` latency bookkeeping at the end of
`SwitchController::poll_committing` (`switch.rs`); latency is
`(now - boundary_reached_at)` model seconds, scaled to milliseconds. -/
def commitLatency (env : PollEnv) (s : CtrlState) : CtrlState :=
  match s.boundary_reached_at with
  | some boundaryAt =>
    { s with
      boundary_reached_at := Option.none
      stats := { s.stats with
        last_switch_latency_ms := some ((env.mono - boundaryAt) * 1000) } }
  | Option.none => s

/-- `SwitchController::poll_committing` (`switch.rs`). -/
def pollCommitting (env : PollEnv) (s : CtrlState) : SwitchAction × CtrlState :=
  match s.next_candidate with
  | Option.none => (.none, { s with phase := .stable })
  | some next =>
    (.subscribeNew next.market.clob_token_ids next.market.slug,
      commitLatency env
        { s with
          pending_unsubscribe := commitPending env s
          next_candidate := Option.none
          current := some next.market
          phase := .stable
          stats := { s.stats with switch_count := s.stats.switch_count + 1 } })

/-- `SwitchController::poll_ready` (`switch.rs`); `boundary_reached_at`
is written before the candidate check, as in the source. -/
def pollReady (env : PollEnv) (s : CtrlState) : SwitchAction × CtrlState :=
  if !isBoundaryReached env s then (.none, s)
  else
    match s.next_candidate with
    | some candidate =>
      match (validateTokensForCommitT env.price candidate.market.clob_token_ids).1 with
      | .ok true =>
        pollCommitting env
          { s with boundary_reached_at := some env.mono, phase := .committing }
      | .ok false =>
        (.freeze "CommitClobNoPriceField" "CLOB tokens have no price at commit time",
          bumpFreeze { s with boundary_reached_at := some env.mono })
      | .error e =>
        (.freeze "CommitClobError" ("CLOB error at commit time: " ++ e),
          bumpFreeze { s with boundary_reached_at := some env.mono })
    | Option.none =>
      (.none, { s with boundary_reached_at := some env.mono, phase := .stable })

/-- The `resolve` call of `SwitchController::poll_prepare`
(`switch.rs`), at the next-bucket asof. -/
def prepResolve (rcfg : ResolverConfig) (series : MarketSeries) (env : PollEnv)
    (s : CtrlState) : ResolveResult :=
  resolve env.gamma env.price rcfg series (nextBucketAsof env s)
    (env.fmtRfc (nextBucketAsof env s)) env.nowMs

/-- The `last_ready_lead_secs` bookkeeping performed when `poll_prepare`
promotes the candidate to `Ready` (`switch.rs`). -/
def readyStats (env : PollEnv) (s : CtrlState) : CtrlState :=
  match s.current with
  | some current =>
    match env.parseRfc current.end_date with
    | some endTs =>
      { s with stats := { s.stats with last_ready_lead_secs := some (endTs - env.nowTs) } }
    | Option.none => s
  | Option.none => s

/-- The `Ok(market)` arm of `SwitchController::poll_prepare`
(`switch.rs`); `s1` is the state with `last_resolve_ok_at` already
updated. -/
def pollPrepareOk (cfg : SwitchConfig) (env : PollEnv) (s1 : CtrlState)
    (market : ResolvedMarket) : SwitchAction × CtrlState :=
  if !isMonotonicAdvance s1 market then
    (.freeze "MonotonicityViolation"
        ("next.bucket_start=" ++ (⟨intDecimal market.bucket_start_ts⟩ : String) ++
          " is not current+900"),
      { bumpFreeze s1 with next_candidate := Option.none })
  else if isConsistent s1 market then
    match s1.next_candidate with
    | some candidate =>
      if cfg.min_consecutive ≤ candidate.consecutive_matches + 1 then
        (.none,
          readyStats env
            { s1 with
              next_candidate := some
                { candidate with consecutive_matches := candidate.consecutive_matches + 1 }
              phase := .ready })
      else
        (.none,
          { s1 with
            next_candidate := some
              { candidate with consecutive_matches := candidate.consecutive_matches + 1 } })
    | Option.none => (.none, s1)
  else
    (.none,
      { s1 with
        next_candidate :=
          some { market := market, first_seen_at := env.mono, consecutive_matches := 1 } })

/-- `SwitchController::poll_prepare` (`switch.rs`). -/
def pollPrepare (cfg : SwitchConfig) (rcfg : ResolverConfig) (series : MarketSeries)
    (env : PollEnv) (s : CtrlState) : SwitchAction × CtrlState :=
  match prepResolve rcfg series env s with
  | .ok market =>
    pollPrepareOk cfg env { s with last_resolve_ok_at := some env.mono } market
  | .freeze _ _ _ => (.none, bumpFreeze s)

/-- `SwitchController::poll_stable` (`switch.rs`). -/
def pollStable (cfg : SwitchConfig) (rcfg : ResolverConfig) (series : MarketSeries)
    (env : PollEnv) (s : CtrlState) : SwitchAction × CtrlState :=
  if shouldPrepareNext cfg env s then
    pollPrepare cfg rcfg series env
      { s with phase := .prepare, next_candidate := Option.none }
  else (.none, s)

/-- `SwitchController::poll` (`switch.rs`): the pending-unsubscribe
check runs at entry, before phase dispatch; `elapsed().as_secs()` is
modelled as truncated subtraction of monotonic seconds. -/
def poll (cfg : SwitchConfig) (rcfg : ResolverConfig) (series : MarketSeries)
    (env : PollEnv) (s : CtrlState) : SwitchAction × CtrlState :=
  match s.pending_unsubscribe with
  | some pending =>
    if cfg.overlap_secs ≤ env.mono - pending.scheduled_at then
      (.unsubscribeOld pending.tokens pending.slug,
        { s with pending_unsubscribe := Option.none })
    else pollDispatch cfg rcfg series env s
  | Option.none => pollDispatch cfg rcfg series env s
where
  pollDispatch (cfg : SwitchConfig) (rcfg : ResolverConfig) (series : MarketSeries)
      (env : PollEnv) (s : CtrlState) : SwitchAction × CtrlState :=
    match s.phase with
    | .stable => pollStable cfg rcfg series env s
    | .prepare => pollPrepare cfg rcfg series env s
    | .ready => pollReady env s
    | .committing => pollCommitting env s

/-- `SwitchController::init` (`switch.rs`): resolves at `now` and on
success stores the market and subscribes; on `Freeze` only the freeze
counter changes. -/
def init (_cfg : SwitchConfig) (rcfg : ResolverConfig) (series : MarketSeries)
    (env : PollEnv) (s : CtrlState) : SwitchAction × CtrlState :=
  match resolve env.gamma env.price rcfg series env.nowTs (env.fmtRfc env.nowTs)
      env.nowMs with
  | .ok market =>
    (.subscribeNew market.clob_token_ids market.slug,
      { s with current := some market, last_resolve_ok_at := some env.mono
               phase := .stable })
  | .freeze reason message _ => (.freeze reason.debugStr message, bumpFreeze s)

/-! ## Helper lemmas: decimal rendering and parsing -/

theorem decDigit_toNat {d : Nat} (h : d < 10) : (decDigit d).toNat = 48 + d := by
  interval_cases d <;> decide

theorem isDigitCh_decDigit {d : Nat} (h : d < 10) : isDigitCh (decDigit d) = true := by
  interval_cases d <;> decide

theorem digitsVal_append_singleton (l : List Char) (c : Char) :
    digitsVal (l ++ [c]) = 10 * digitsVal l + (c.toNat - 48) := by
  simp [digitsVal, List.foldl_append]
  omega

theorem natDecGo_spec :
    ∀ fuel n, n < fuel →
      (natDecGo fuel n).all isDigitCh = true ∧ digitsVal (natDecGo fuel n) = n ∧
        natDecGo fuel n ≠ [] := by
  intro fuel
  induction fuel with
  | zero => intro n h; omega
  | succ f ih =>
    intro n h
    by_cases h10 : n < 10
    · refine ⟨?_, ?_, ?_⟩ <;> simp [natDecGo, h10, digitsVal, isDigitCh_decDigit]
      rw [decDigit_toNat h10]
      omega
    · have hdiv : n / 10 < f := by
        have h1 : n / 10 < n := Nat.div_lt_self (by omega) (by omega)
        omega
      obtain ⟨h1, h2, h3⟩ := ih (n / 10) hdiv
      have hmod : n % 10 < 10 := Nat.mod_lt _ (by omega)
      refine ⟨?_, ?_, ?_⟩
      · simp [natDecGo, h10, List.all_append, h1, isDigitCh_decDigit hmod]
      · simp only [natDecGo, if_neg h10]
        rw [digitsVal_append_singleton, h2, decDigit_toNat hmod]
        omega
      · simp [natDecGo, h10]

theorem natDecimal_spec (n : Nat) :
    (natDecimal n).all isDigitCh = true ∧ digitsVal (natDecimal n) = n ∧
      natDecimal n ≠ [] :=
  natDecGo_spec (n + 1) n (Nat.lt_succ_self n)

theorem digit_ne_dash {c : Char} (h : isDigitCh c = true) : c ≠ dashChar := by
  intro hc
  subst hc
  simp [isDigitCh, dashChar] at h

theorem natDecimal_no_dash (n : Nat) : dashChar ∉ natDecimal n := by
  intro hmem
  have hall := (natDecimal_spec n).1
  rw [List.all_eq_true] at hall
  exact digit_ne_dash (hall _ hmem) rfl

theorem parseI64_of_digits {cs : List Char} (hall : cs.all isDigitCh = true)
    (hne : cs ≠ []) (hmax : (digitsVal cs : Int) ≤ 2 ^ 63 - 1) :
    parseI64 cs = some ((digitsVal cs : Nat) : Int) := by
  match cs, hne with
  | c :: r, _ =>
    have hc : isDigitCh c = true := by
      rw [List.all_eq_true] at hall
      exact hall c (List.mem_cons_self c r)
    have hc' : 48 ≤ c.toNat ∧ c.toNat ≤ 57 := by
      simpa [isDigitCh] using hc
    have hc48 : 48 ≤ c.toNat := hc'.1
    have hplus : ¬c = Char.ofNat 43 := by
      intro hc43
      have : c.toNat = 43 := by rw [hc43]; decide
      omega
    have hdash : ¬c = dashChar := by
      intro hc45
      have : c.toNat = 45 := by rw [hc45]; decide
      omega
    simp [parseI64, hplus, hdash, hall]
    omega

theorem parseI64_natDecimal {n : Nat} (hmax : (n : Int) ≤ 2 ^ 63 - 1) :
    parseI64 (natDecimal n) = some ((n : Nat) : Int) := by
  obtain ⟨h1, h2, h3⟩ := natDecimal_spec n
  rw [parseI64_of_digits h1 h3 (by rw [h2]; exact hmax), h2]

theorem intDecimal_of_nonneg {i : Int} (h : 0 ≤ i) :
    intDecimal i = natDecimal i.natAbs := by
  simp [intDecimal, not_lt.mpr h]

theorem parseI64_intDecimal {i : Int} (h0 : 0 ≤ i) (hmax : i ≤ 2 ^ 63 - 1) :
    parseI64 (intDecimal i) = some i := by
  have hn : (i.natAbs : Int) ≤ 2 ^ 63 - 1 := by omega
  rw [intDecimal_of_nonneg h0, parseI64_natDecimal hn, Int.natAbs_of_nonneg h0]

/-! ## Helper lemmas: slug instantiation and timestamp extraction -/

theorem replaceBraces_tail (rep : List Char) :
    ∀ cs : List Char, lbrace ∉ cs →
      replaceBraces (cs ++ [lbrace, rbrace]) rep = cs ++ rep := by
  intro cs
  induction cs with
  | nil => intro _; simp [replaceBraces]
  | cons c cs ih =>
    intro hnb
    have hc : c ≠ lbrace := fun h => hnb (h ▸ List.mem_cons_self c cs)
    have hcs : lbrace ∉ cs := fun h => hnb (List.mem_cons_of_mem c h)
    cases cs with
    | nil => simp [replaceBraces, hc]
    | cons c2 cs2 =>
      have := ih hcs
      simp only [List.cons_append] at this ⊢
      rw [replaceBraces]
      simp [hc, this]

theorem takeWhile_all_append {p : Char → Bool} :
    ∀ l : List Char, (∀ c ∈ l, p c = true) → ∀ q r, p q = false →
      (l ++ q :: r).takeWhile p = l := by
  intro l
  induction l with
  | nil => intro _ q r hq; simp [List.takeWhile, hq]
  | cons c t ih =>
    intro hall q r hq
    have hc : p c = true := hall c (List.mem_cons_self c t)
    simp only [List.cons_append, List.takeWhile_cons, hc, if_true]
    rw [ih (fun x hx => hall x (List.mem_cons_of_mem c hx)) q r hq]

theorem lastDashSegment_concat (pfx digits : List Char)
    (hd : dashChar ∉ digits) :
    lastDashSegment ⟨(pfx ++ [dashChar]) ++ digits⟩ = digits := by
  show ((((pfx ++ [dashChar]) ++ digits).reverse.takeWhile
      (fun c => c ≠ dashChar)).reverse) = digits
  rw [List.reverse_append, List.reverse_append]
  simp only [List.reverse_cons, List.reverse_nil, List.nil_append, List.append_assoc,
    List.singleton_append]
  rw [takeWhile_all_append digits.reverse
      (by
        intro c hc
        simp only [List.mem_reverse] at hc
        exact decide_eq_true (fun h => hd (h ▸ hc)))
      dashChar (pfx.reverse) (by simp), List.reverse_reverse]

/-- For every slug pattern of a series: instantiating with a nonnegative
in-range timestamp yields a slug whose trailing integer is that
timestamp. -/
theorem extract_instantiate_of_split {p : String} (pfx : List Char)
    (hsplit : p.data = (pfx ++ [dashChar]) ++ [lbrace, rbrace])
    (hnb : lbrace ∉ pfx ++ [dashChar]) {ts : Int} (h0 : 0 ≤ ts)
    (hmax : ts ≤ 2 ^ 63 - 1) :
    extractBucketTimestamp (instantiateSlug p ts) = some ts := by
  have hslug : instantiateSlug p ts = ⟨(pfx ++ [dashChar]) ++ intDecimal ts⟩ := by
    show (⟨replaceBraces p.data (intDecimal ts)⟩ : String) = _
    rw [hsplit, replaceBraces_tail]
    exact hnb
  rw [hslug]
  show parseI64 (lastDashSegment ⟨(pfx ++ [dashChar]) ++ intDecimal ts⟩) = some ts
  rw [lastDashSegment_concat pfx (intDecimal ts)
      (by rw [intDecimal_of_nonneg h0]; exact natDecimal_no_dash _)]
  exact parseI64_intDecimal h0 hmax

theorem extract_instantiate {series : MarketSeries} {p : String}
    (hp : p ∈ series.slugPatterns) {ts : Int} (h0 : 0 ≤ ts)
    (hmax : ts ≤ 2 ^ 63 - 1) :
    extractBucketTimestamp (instantiateSlug p ts) = some ts := by
  cases series <;> simp only [MarketSeries.slugPatterns, List.mem_cons,
    List.mem_singleton, List.not_mem_nil, or_false] at hp
  · rcases hp with rfl | rfl
    · exact extract_instantiate_of_split ("btc-updown-15m".data) (by decide) (by decide) h0 hmax
    · exact extract_instantiate_of_split ("btc-up-or-down-15m".data) (by decide) (by decide) h0 hmax
  · rcases hp with rfl | rfl
    · exact extract_instantiate_of_split ("eth-updown-15m".data) (by decide) (by decide) h0 hmax
    · exact extract_instantiate_of_split ("eth-up-or-down-15m".data) (by decide) (by decide) h0 hmax

/-! ## Helper lemmas: resolver characterization -/

theorem buildResult_ok {mk : GammaMarket} {u : String} {ms bs : Int}
    {q : List String} {m : ResolvedMarket}
    (h : buildResult mk u ms bs q = .ok m) :
    m.slug = mk.slug ∧ m.bucket_start_ts = bs := by
  unfold buildResult at h
  split at h
  · split at h
    · simp only [buildResult.mkOk, ResolveResult.ok.injEq] at h
      subst h; exact ⟨rfl, rfl⟩
    · simp only [buildResult.mkOk, ResolveResult.ok.injEq] at h
      subst h; exact ⟨rfl, rfl⟩
    · exact ResolveResult.noConfusion h
  · exact ResolveResult.noConfusion h

theorem buildResult_freeze {mk : GammaMarket} {u : String} {ms bs : Int}
    {q : List String} {r : SelectionReason} {msg : String} {c : List String}
    (h : buildResult mk u ms bs q = .freeze r msg c) : r = .validationFailed := by
  unfold buildResult at h
  split at h
  · split at h
    · simp [buildResult.mkOk] at h
    · simp [buildResult.mkOk] at h
    · simp only [ResolveResult.freeze.injEq] at h
      exact h.1.symm
  · simp only [ResolveResult.freeze.injEq] at h
    exact h.1.symm

theorem clobTokensGo_some {price : PriceOracle} {q : List String}
    {r : ResolveResult} :
    ∀ ts : List String, (clobTokensGo price q ts).1 = some r →
      ∃ msg, r = .freeze .clobPriceCheckFailed msg q := by
  intro ts
  induction ts with
  | nil => intro h; simp [clobTokensGo] at h
  | cons t rest ih =>
    intro h
    rw [clobTokensGo] at h
    split at h
    · exact ih (by simpa using h)
    · simp only [Option.some.injEq] at h
      exact ⟨_, h.symm⟩
    · simp only [Option.some.injEq] at h
      exact ⟨_, h.symm⟩

theorem validateMarket_none {cfg : ResolverConfig} {m : GammaMarket} {asofTs : Int}
    (h : validateMarket cfg m asofTs = Option.none) :
    m.isValidBinary = true ∧
      ∃ e, extractBucketTimestamp m.slug = some e ∧ e ≤ asofTs ∧
        asofTs < e + cfg.bucket_size_secs + cfg.time_tolerance_secs := by
  unfold validateMarket at h
  split_ifs at h with h1 h2 h3
  constructor
  · simpa using h1
  · split at h
    · cases h
    · rename_i e heq
      split_ifs at h with h4
      simp only [Bool.or_eq_true, decide_eq_true_eq, not_or, not_le, not_lt] at h4
      exact ⟨e, heq, by omega, by omega⟩

theorem parseI64_nonneg {cs : List Char} {v : Int}
    (hnd : dashChar ∉ cs) (h : parseI64 cs = some v) : 0 ≤ v := by
  unfold parseI64 at h
  match cs, hnd with
  | [], _ => simp at h
  | c :: r, hnd =>
    have hcd : ¬c = dashChar := fun hc => hnd (hc ▸ List.mem_cons_self c r)
    by_cases hcp : c = Char.ofNat 43 <;>
      simp only [hcp, if_true, if_false, hcd, if_neg] at h <;>
      split_ifs at h <;> simp only [Option.some.injEq] at h <;> omega

theorem lastDashSegment_no_dash (s : String) : dashChar ∉ lastDashSegment s := by
  intro hmem
  unfold lastDashSegment at hmem
  rw [List.mem_reverse] at hmem
  have := List.takeWhile_subset (l := s.data.reverse) (p := fun c => c ≠ dashChar)
  have hp := List.mem_takeWhile_imp hmem
  simp at hp

theorem extract_nonneg {slug : String} {e : Int}
    (h : extractBucketTimestamp slug = some e) : 0 ≤ e :=
  parseI64_nonneg (lastDashSegment_no_dash slug) h

theorem tryCurrentSlugs_ok {gamma : GammaOracle} {price : PriceOracle}
    {cfg : ResolverConfig} {asofTs : Int} {u : String} {ms bs : Int}
    {m : ResolvedMarket} :
    ∀ slugs q t, (tryCurrentSlugs gamma price cfg asofTs u ms bs slugs q t).1
        = some (.ok m) →
      bs ≤ asofTs ∧ asofTs < bs + cfg.bucket_size_secs ∧
        ∃ slug mk q', slug ∈ slugs ∧ gamma slug = .found mk ∧
          buildResult mk u ms bs q' = .ok m := by
  intro slugs
  induction slugs with
  | nil => intro q t h; simp [tryCurrentSlugs] at h
  | cons slug rest ih =>
    intro q t h
    rw [tryCurrentSlugs] at h
    split at h
    · rename_i mk hg
      split at h
      · rename_i hstruct
        split at h
        · rename_i hwin
          have hwin' : bs ≤ asofTs ∧ asofTs < bs + cfg.bucket_size_secs := by
            simpa [Bool.and_eq_true, decide_eq_true_eq] using hwin
          split at h
          · split at h
            · rename_i fr heq
              simp only [Option.some.injEq] at h
              subst h
              obtain ⟨msg, hmsg⟩ := clobTokensGo_some mk.clob_token_ids heq
              exact absurd hmsg (by simp)
            · simp only [Option.some.injEq] at h
              exact ⟨hwin'.1, hwin'.2, slug, mk, _, List.mem_cons_self _ _, hg, h⟩
          · simp only [Option.some.injEq] at h
            exact ⟨hwin'.1, hwin'.2, slug, mk, _, List.mem_cons_self _ _, hg, h⟩
        · obtain ⟨h1, h2, s', mk', q', hs, hgm, hb⟩ := ih _ _ h
          exact ⟨h1, h2, s', mk', q', List.mem_cons_of_mem _ hs, hgm, hb⟩
      · obtain ⟨h1, h2, s', mk', q', hs, hgm, hb⟩ := ih _ _ h
        exact ⟨h1, h2, s', mk', q', List.mem_cons_of_mem _ hs, hgm, hb⟩
    · obtain ⟨h1, h2, s', mk', q', hs, hgm, hb⟩ := ih _ _ h
      exact ⟨h1, h2, s', mk', q', List.mem_cons_of_mem _ hs, hgm, hb⟩
    · obtain ⟨h1, h2, s', mk', q', hs, hgm, hb⟩ := ih _ _ h
      exact ⟨h1, h2, s', mk', q', List.mem_cons_of_mem _ hs, hgm, hb⟩

theorem tryPrevSlugs_ok {gamma : GammaOracle} {price : PriceOracle}
    {cfg : ResolverConfig} {asofTs : Int} {u : String} {ms bs : Int}
    {m : ResolvedMarket} :
    ∀ slugs q t, (tryPrevSlugs gamma price cfg asofTs u ms bs slugs q t).1
        = some (.ok m) →
      ∃ slug mk q', slug ∈ slugs ∧ gamma slug = .found mk ∧
        validateMarket cfg mk asofTs = Option.none ∧
        buildResult mk u ms bs q' = .ok m := by
  intro slugs
  induction slugs with
  | nil => intro q t h; simp [tryPrevSlugs] at h
  | cons slug rest ih =>
    intro q t h
    rw [tryPrevSlugs] at h
    split at h
    · rename_i mk hg
      split at h
      · obtain ⟨s', mk', q', hs, hgm, hv, hb⟩ := ih _ _ h
        exact ⟨s', mk', q', List.mem_cons_of_mem _ hs, hgm, hv, hb⟩
      · rename_i hvm
        split at h
        · split at h
          · rename_i fr heq
            simp only [Option.some.injEq] at h
            subst h
            obtain ⟨msg, hmsg⟩ := clobTokensGo_some mk.clob_token_ids heq
            exact absurd hmsg (by simp)
          · simp only [Option.some.injEq] at h
            exact ⟨slug, mk, _, List.mem_cons_self _ _, hg, hvm, h⟩
        · simp only [Option.some.injEq] at h
          exact ⟨slug, mk, _, List.mem_cons_self _ _, hg, hvm, h⟩
    · obtain ⟨s', mk', q', hs, hgm, hv, hb⟩ := ih _ _ h
      exact ⟨s', mk', q', List.mem_cons_of_mem _ hs, hgm, hv, hb⟩
    · obtain ⟨s', mk', q', hs, hgm, hv, hb⟩ := ih _ _ h
      exact ⟨s', mk', q', List.mem_cons_of_mem _ hs, hgm, hv, hb⟩

/-- Any `Ok` returned by `resolve` carries `bucket_start_ts` equal to
the asof bucket and came either from the current-bucket loop (strict
window) or from the previous-bucket loop (tolerant validation). -/
theorem resolve_ok_cases {gamma : GammaOracle} {price : PriceOracle}
    {cfg : ResolverConfig} {series : MarketSeries} {asofTs : Int}
    {u : String} {ms : Int} {m : ResolvedMarket}
    (h : resolve gamma price cfg series asofTs u ms = .ok m) :
    m.bucket_start_ts = rustBucketStart cfg asofTs ∧
      ((rustBucketStart cfg asofTs ≤ asofTs ∧
          asofTs < rustBucketStart cfg asofTs + cfg.bucket_size_secs ∧
          ∃ slug mk q', slug ∈ currentBucketSlugs cfg series asofTs ∧
            gamma slug = .found mk ∧
            buildResult mk u ms (rustBucketStart cfg asofTs) q' = .ok m) ∨
        (∃ slug mk q', slug ∈ prevBucketSlugs cfg series asofTs ∧
          gamma slug = .found mk ∧ validateMarket cfg mk asofTs = Option.none ∧
          buildResult mk u ms (rustBucketStart cfg asofTs) q' = .ok m)) := by
  unfold resolve resolveT at h
  rcases htc : tryCurrentSlugs gamma price cfg asofTs u ms (rustBucketStart cfg asofTs)
      (currentBucketSlugs cfg series asofTs) [] [] with ⟨o, q, t⟩
  rw [htc] at h
  cases o with
  | some r =>
    simp only at h
    subst h
    obtain ⟨h1, h2, slug, mk, q', hs, hgm, hb⟩ :=
      tryCurrentSlugs_ok _ _ _ (by rw [htc])
    exact ⟨(buildResult_ok hb).2, Or.inl ⟨h1, h2, slug, mk, q', hs, hgm, hb⟩⟩
  | none =>
    simp only at h
    split at h
    · rcases htp : tryPrevSlugs gamma price cfg asofTs u ms (rustBucketStart cfg asofTs)
          (prevBucketSlugs cfg series asofTs) q t with ⟨o2, q2, t2⟩
      rw [htp] at h
      cases o2 with
      | some r2 =>
        simp only at h
        subst h
        obtain ⟨slug, mk, q'', hs, hgm, hv, hb⟩ := tryPrevSlugs_ok _ _ _ (by rw [htp])
        exact ⟨(buildResult_ok hb).2, Or.inr ⟨slug, mk, q'', hs, hgm, hv, hb⟩⟩
      | none =>
        simp only at h
        exact ResolveResult.noConfusion h
    · exact ResolveResult.noConfusion h

/-! ## Helper lemmas: truncated vs floor division -/

theorem tdiv_mul_le_of_nonneg {a b : Int} (ha : 0 ≤ a) (hb : 0 < b) :
    Int.tdiv a b * b ≤ a := by
  rw [Int.tdiv_eq_ediv ha (le_of_lt hb)]
  exact Int.ediv_mul_le a (ne_of_gt hb)

theorem lt_tdiv_mul_add_of_nonneg {a b : Int} (ha : 0 ≤ a) (hb : 0 < b) :
    a < Int.tdiv a b * b + b := by
  rw [Int.tdiv_eq_ediv ha (le_of_lt hb)]
  have := Int.lt_ediv_add_one_mul_self a hb
  nlinarith [this]

theorem tdiv_mul_eq_fdiv_mul {a b : Int} (hb : 0 < b)
    (h : Int.tdiv a b * b ≤ a) :
    Int.tdiv a b * b = Int.fdiv a b * b := by
  rcases le_or_lt 0 a with ha | ha
  · rw [Int.tdiv_eq_ediv ha (le_of_lt hb), Int.fdiv_eq_ediv _ (le_of_lt hb)]
  · have hneg : Int.tdiv a b * b = -(Int.tdiv (-a) b * b) := by
      rw [Int.neg_tdiv]
      ring
    have hle : Int.tdiv (-a) b * b ≤ -a := tdiv_mul_le_of_nonneg (by omega) hb
    have hge : a ≤ Int.tdiv a b * b := by linarith
    have heq : Int.tdiv a b * b = a := le_antisymm h hge
    generalize hT : Int.tdiv a b = tq at heq ⊢
    have hdvd : b ∣ a := ⟨tq, by rw [← heq]; ring⟩
    rw [Int.fdiv_eq_ediv _ (le_of_lt hb), Int.ediv_mul_cancel hdvd, heq]

/-! ## Concrete fixtures for witnesses and counterexamples -/

/-- A structurally valid discovery market for the given slug. -/
def fixMarket (slug : String) (toks : List String) : GammaMarket :=
  { id := "m1", slug := slug, question := "q", condition_id := "c1"
    clob_token_ids := toks, outcomes := ["Up", "Down"], outcome_prices := []
    start_date := some "S", end_date := some "E"
    active := true, closed := false, archived := false, enable_order_book := true }

/-- Price oracle that always returns a body with a `"price"` field. -/
def priceAlwaysOk : PriceOracle := fun _ _ => .ok true

/-- Discovery oracle with no markets (404 everywhere). -/
def gammaNone : GammaOracle := fun _ => .notFound

/-- Discovery oracle with one valid market in bucket 900. -/
def gammaBucket900 : GammaOracle := fun sl =>
  if sl = "btc-updown-15m-900" then .found (fixMarket "btc-updown-15m-900" ["u", "d"])
  else .notFound

theorem gammaBucket900_echo :
    ∀ sl mk, gammaBucket900 sl = .found mk → mk.slug = sl := by
  intro sl mk h
  unfold gammaBucket900 at h
  split_ifs at h with hs
  subst hs
  cases h
  rfl

/-- Discovery oracle with only a bucket-0 market: forces the
previous-bucket fallback path when `asof` is in bucket 900. -/
def gammaBucket0 : GammaOracle := fun sl =>
  if sl = "btc-updown-15m-0" then .found (fixMarket "btc-updown-15m-0" ["u", "d"])
  else .notFound

/-- Discovery oracle whose only market has an empty `clob_token_ids`. -/
def gammaEmptyTokens : GammaOracle := fun sl =>
  if sl = "btc-updown-15m-900" then .found (fixMarket "btc-updown-15m-900" [])
  else .notFound

/-- The `ResolvedMarket` produced on the fallback path from
`gammaBucket0` at `asof = 900`. -/
def resC4 : ResolvedMarket :=
  { gamma_market_id := "m1", condition_id := "c1", clob_token_ids := ("u", "d")
    slug := "btc-updown-15m-0", question := "q", start_date := "S", end_date := "E"
    selected_at_ms := 0, selection_reason := .uniqueMatchInWindow
    outcomes := ("Up", "Down"), asof_utc := "A"
    candidate_slugs := ["btc-updown-15m-0"], bucket_start_ts := 900 }

/-- The `ResolvedMarket` produced on the current-bucket path from
`gammaBucket900` at `asof = 905`. -/
def resB900 : ResolvedMarket :=
  { gamma_market_id := "m1", condition_id := "c1", clob_token_ids := ("u", "d")
    slug := "btc-updown-15m-900", question := "q", start_date := "S", end_date := "E"
    selected_at_ms := 0, selection_reason := .uniqueMatchInWindow
    outcomes := ("Up", "Down"), asof_utc := "A"
    candidate_slugs := ["btc-updown-15m-900"], bucket_start_ts := 900 }

/-! ## C3 -/

/-- C3: for every `resolve(series, asof)` returning `Ok(m)`,
`m.bucket_start_ts` is the mathematical floor
`floor(asof_ts / 900) * 900` (also for negative `asof_ts`), and it is a
multiple of the default bucket size 900. -/
theorem C3_ok_bucket_is_floor {gamma : GammaOracle} {price : PriceOracle}
    {series : MarketSeries} {asofTs : Int} {u : String} {ms : Int}
    {m : ResolvedMarket}
    (h : resolve gamma price defaultResolverConfig series asofTs u ms = .ok m) :
    m.bucket_start_ts = Int.fdiv asofTs 900 * 900 ∧ (900 : Int) ∣ m.bucket_start_ts := by
  obtain ⟨hbs, hcases⟩ := resolve_ok_cases h
  have hrb : rustBucketStart defaultResolverConfig asofTs = Int.tdiv asofTs 900 * 900 := rfl
  have hble : Int.tdiv asofTs 900 * 900 ≤ asofTs := by
    rcases hcases with ⟨h1, -⟩ | ⟨slug, mk, q', -, -, hv, -⟩
    · rw [hrb] at h1; exact h1
    · obtain ⟨-, e, hext, hle, -⟩ := validateMarket_none hv
      have he0 := extract_nonneg hext
      exact tdiv_mul_le_of_nonneg (by omega) (by norm_num)
  have hfd := tdiv_mul_eq_fdiv_mul (by norm_num : (0 : Int) < 900) hble
  refine ⟨by rw [hbs, hrb, hfd], ?_⟩
  rw [hbs, hrb, hfd]
  exact ⟨Int.fdiv asofTs 900, mul_comm _ _⟩

/-- Witness for C3 at a concrete input. -/
theorem C3_ok_bucket_is_floor_witness :
    resolve gammaBucket900 priceAlwaysOk defaultResolverConfig .btc15m 905 "A" 0
        = .ok resB900 ∧
      resB900.bucket_start_ts = Int.fdiv 905 900 * 900 ∧
        (900 : Int) ∣ resB900.bucket_start_ts := by
  have hres : resolve gammaBucket900 priceAlwaysOk defaultResolverConfig .btc15m 905 "A" 0
      = .ok resB900 := by decide
  exact ⟨hres, C3_ok_bucket_is_floor hres⟩

/-! ## C4 -/

/-- C4 counterexample: on the previous-bucket fallback path the result's
`bucket_start_ts` is the asof bucket, not the trailing timestamp of the
chosen slug — here the slug ends in `0` while `bucket_start_ts = 900`. -/
theorem C4_counterexample :
    resolve gammaBucket0 priceAlwaysOk defaultResolverConfig .btc15m 900 "A" 0
        = .ok resC4 ∧
      resC4.bucket_start_ts = 900 ∧
      extractBucketTimestamp resC4.slug = some 0 ∧
      extractBucketTimestamp resC4.slug ≠ some resC4.bucket_start_ts := by
  refine ⟨by decide, by decide, by decide, by decide⟩

theorem extract_inst_neg900 {series : MarketSeries} {p : String}
    (hp : p ∈ series.slugPatterns) :
    extractBucketTimestamp (instantiateSlug p (-900)) = some 900 := by
  cases series <;> simp only [MarketSeries.slugPatterns, List.mem_cons,
    List.not_mem_nil, or_false] at hp <;> rcases hp with rfl | rfl <;> decide

/-- C4 amended: when the discovery API echoes the queried slug and
`asof` is a representable nonnegative Unix second, every `Ok(m)` has a
slug whose trailing integer is either `m.bucket_start_ts` (current-bucket
path) or `m.bucket_start_ts - 900` (previous-bucket fallback path, where
the code records the asof bucket rather than the matched market's
bucket). -/
theorem C4_amended_trailing_ts {gamma : GammaOracle} {price : PriceOracle}
    {series : MarketSeries} {asofTs : Int} {u : String} {ms : Int}
    {m : ResolvedMarket}
    (hecho : ∀ sl mk, gamma sl = .found mk → mk.slug = sl)
    (h0 : 0 ≤ asofTs) (hmax : asofTs ≤ 2 ^ 63 - 1)
    (h : resolve gamma price defaultResolverConfig series asofTs u ms = .ok m) :
    extractBucketTimestamp m.slug = some m.bucket_start_ts ∨
      extractBucketTimestamp m.slug = some (m.bucket_start_ts - 900) := by
  obtain ⟨hbs, hcases⟩ := resolve_ok_cases h
  have hrb : rustBucketStart defaultResolverConfig asofTs = Int.tdiv asofTs 900 * 900 := rfl
  have hbs0 : 0 ≤ rustBucketStart defaultResolverConfig asofTs := by
    rw [hrb]
    exact mul_nonneg (Int.tdiv_nonneg h0 (by norm_num)) (by norm_num)
  have hbsle : rustBucketStart defaultResolverConfig asofTs ≤ asofTs := by
    rw [hrb]
    exact tdiv_mul_le_of_nonneg h0 (by norm_num)
  rcases hcases with ⟨-, -, slug, mk, q', hs, hgm, hb⟩ | ⟨slug, mk, q', hs, hgm, hv, hb⟩
  · left
    obtain ⟨p, hp, hinst⟩ := List.mem_map.mp hs
    have hms : m.slug = slug := (hecho _ _ hgm) ▸ (buildResult_ok hb).1
    rw [hms, ← hinst, hbs]
    exact extract_instantiate hp hbs0 (by omega)
  · obtain ⟨p, hp, hinst⟩ := List.mem_map.mp hs
    have hms : m.slug = slug := (hecho _ _ hgm) ▸ (buildResult_ok hb).1
    by_cases hprev : 0 ≤ rustBucketStart defaultResolverConfig asofTs
        - defaultResolverConfig.bucket_size_secs
    · right
      rw [hms, ← hinst, hbs]
      exact extract_instantiate hp hprev (by
        have : defaultResolverConfig.bucket_size_secs = 900 := rfl
        omega)
    · exfalso
      have hdvd : (900 : Int) ∣ rustBucketStart defaultResolverConfig asofTs := by
        rw [hrb]
        exact ⟨Int.tdiv asofTs 900, mul_comm _ _⟩
      have hb900 : defaultResolverConfig.bucket_size_secs = 900 := rfl
      have hbz : rustBucketStart defaultResolverConfig asofTs = 0 := by omega
      have hlt : asofTs < 900 := by
        have := lt_tdiv_mul_add_of_nonneg h0 (by norm_num : (0 : Int) < 900)
        rw [hrb] at hbz
        omega
      obtain ⟨-, e, hext, hle, -⟩ := validateMarket_none hv
      have hslug : mk.slug = instantiateSlug p (-900) := by
        rw [hecho _ _ hgm, ← hinst, hbz, hb900]
        norm_num
      rw [hslug, extract_inst_neg900 hp] at hext
      cases hext
      omega

/-- Witness for C4 (amended) at a concrete input. -/
theorem C4_amended_trailing_ts_witness :
    resolve gammaBucket900 priceAlwaysOk defaultResolverConfig .btc15m 905 "A" 0
        = .ok resB900 ∧
      (extractBucketTimestamp resB900.slug = some resB900.bucket_start_ts ∨
        extractBucketTimestamp resB900.slug = some (resB900.bucket_start_ts - 900)) := by
  have hres : resolve gammaBucket900 priceAlwaysOk defaultResolverConfig .btc15m 905 "A" 0
      = .ok resB900 := by decide
  exact ⟨hres,
    C4_amended_trailing_ts gammaBucket900_echo (by decide) (by decide) hres⟩

/-! ## C5 -/

/-- C5 counterexample: a discovery response whose `clob_token_ids` is
empty is rejected during candidate validation, so the resolution ends in
`Freeze{NoCandidates}`, not `Freeze{ValidationFailed}`. -/
theorem C5_counterexample :
    resolve gammaEmptyTokens priceAlwaysOk defaultResolverConfig .btc15m 905 "A" 0
        = .freeze .noCandidates "No valid market candidates found"
            ["btc-updown-15m-900"] ∧
      SelectionReason.noCandidates ≠ SelectionReason.validationFailed := by
  refine ⟨by decide, by decide⟩

theorem tryCurrentSlugs_none_of_invalid {gamma : GammaOracle} {price : PriceOracle}
    {cfg : ResolverConfig} {asofTs : Int} {u : String} {ms bs : Int}
    (hbad : ∀ sl mk, gamma sl = .found mk → mk.isValidBinary = false) :
    ∀ slugs q t, (tryCurrentSlugs gamma price cfg asofTs u ms bs slugs q t).1
        = Option.none := by
  intro slugs
  induction slugs with
  | nil => intro q t; simp [tryCurrentSlugs]
  | cons slug rest ih =>
    intro q t
    rw [tryCurrentSlugs]
    split
    · rename_i mk hg
      rw [if_neg (by simp [hbad _ _ hg])]
      exact ih _ _
    · exact ih _ _
    · exact ih _ _

theorem tryPrevSlugs_none_of_invalid {gamma : GammaOracle} {price : PriceOracle}
    {cfg : ResolverConfig} {asofTs : Int} {u : String} {ms bs : Int}
    (hbad : ∀ sl mk, gamma sl = .found mk → mk.isValidBinary = false) :
    ∀ slugs q t, (tryPrevSlugs gamma price cfg asofTs u ms bs slugs q t).1
        = Option.none := by
  intro slugs
  induction slugs with
  | nil => intro q t; simp [tryPrevSlugs]
  | cons slug rest ih =>
    intro q t
    rw [tryPrevSlugs]
    split
    · rename_i mk hg
      have hvm : validateMarket cfg mk asofTs = some .validationFailed := by
        unfold validateMarket
        rw [if_pos (by simp [hbad _ _ hg])]
      rw [hvm]
      exact ih _ _
    · exact ih _ _
    · exact ih _ _

/-- C5 amended: when every market the discovery API returns has a
token-id list of the wrong cardinality, it is filtered out during
candidate validation and the resolution ends in `Freeze{NoCandidates}`
(the `ValidationFailed` reason of `build_result` is unreachable for
token cardinality, since `is_valid_binary` gates selection). -/
theorem C5_amended_wrong_cardinality {gamma : GammaOracle} {price : PriceOracle}
    {series : MarketSeries} {asofTs : Int} {u : String} {ms : Int}
    (hbad : ∀ sl mk, gamma sl = .found mk → mk.clob_token_ids.length ≠ 2) :
    ∃ q, resolve gamma price defaultResolverConfig series asofTs u ms =
      .freeze .noCandidates "No valid market candidates found" q := by
  have hbad' : ∀ sl mk, gamma sl = .found mk → mk.isValidBinary = false := by
    intro sl mk h
    simpa [GammaMarket.isValidBinary] using hbad sl mk h
  unfold resolve resolveT
  generalize htc : tryCurrentSlugs gamma price defaultResolverConfig asofTs u ms
      (rustBucketStart defaultResolverConfig asofTs)
      (currentBucketSlugs defaultResolverConfig series asofTs) [] [] = P
  obtain ⟨o, q, t⟩ := P
  have ho : o = Option.none := by
    have h1 := @tryCurrentSlugs_none_of_invalid gamma price defaultResolverConfig asofTs u ms
        (rustBucketStart defaultResolverConfig asofTs) hbad'
        (currentBucketSlugs defaultResolverConfig series asofTs) [] []
    rw [htc] at h1
    exact h1
  subst ho
  simp only
  rw [if_pos (show defaultResolverConfig.check_adjacent_buckets = true from rfl)]
  generalize htp : tryPrevSlugs gamma price defaultResolverConfig asofTs u ms
      (rustBucketStart defaultResolverConfig asofTs)
      (prevBucketSlugs defaultResolverConfig series asofTs) q t = P2
  obtain ⟨o2, q2, t2⟩ := P2
  have ho2 : o2 = Option.none := by
    have h2 := @tryPrevSlugs_none_of_invalid gamma price defaultResolverConfig asofTs u ms
        (rustBucketStart defaultResolverConfig asofTs) hbad'
        (prevBucketSlugs defaultResolverConfig series asofTs) q t
    rw [htp] at h2
    exact h2
  subst ho2
  exact ⟨q2, rfl⟩

/-- Witness for C5 (amended) at a concrete input. -/
theorem C5_amended_wrong_cardinality_witness :
    ∃ q, resolve gammaNone priceAlwaysOk defaultResolverConfig .btc15m 905 "A" 0 =
      .freeze .noCandidates "No valid market candidates found" q :=
  C5_amended_wrong_cardinality (fun _ _ h => LookupRes.noConfusion h)

/-! ## C6 -/

/-- The `(token, side)` trace fragment of probing a single token. -/
def tokenTrace (price : PriceOracle) (t : String) : List (String × String) :=
  ((validateClobTokenT price t).2).map (fun s => (t, s))

theorem clobTokensGo_all_ok {price : PriceOracle} {queried : List String} :
    ∀ ts : List String, (∀ t ∈ ts, (validateClobTokenT price t).1 = .ok true) →
      (clobTokensGo price queried ts).1 = Option.none ∧
        (clobTokensGo price queried ts).2 = ts.flatMap (tokenTrace price) := by
  intro ts
  induction ts with
  | nil => intro _; simp [clobTokensGo]
  | cons t rest ih =>
    intro hall
    have ht : (validateClobTokenT price t).1 = .ok true :=
      hall t (List.mem_cons_self _ _)
    obtain ⟨ih1, ih2⟩ := ih (fun x hx => hall x (List.mem_cons_of_mem _ hx))
    rw [clobTokensGo]
    rcases hv : validateClobTokenT price t with ⟨r, tr⟩
    rw [hv] at ht
    simp only at ht
    subst ht
    simp only [List.flatMap_cons]
    refine ⟨ih1, ?_⟩
    rw [ih2]
    simp [tokenTrace, hv]

theorem clobTokensGo_first_fail {price : PriceOracle} {queried : List String}
    {t : String} (hfail : (validateClobTokenT price t).1 ≠ .ok true) :
    ∀ pre post, (∀ t' ∈ pre, (validateClobTokenT price t').1 = .ok true) →
      (∃ msg, (clobTokensGo price queried (pre ++ t :: post)).1
          = some (.freeze .clobPriceCheckFailed msg queried)) ∧
        (clobTokensGo price queried (pre ++ t :: post)).2
          = (pre ++ [t]).flatMap (tokenTrace price) := by
  intro pre
  induction pre with
  | nil =>
    intro post _
    simp only [List.nil_append, List.flatMap_cons, List.flatMap_nil, List.append_nil,
      List.flatMap_append]
    rw [clobTokensGo]
    rcases hv : validateClobTokenT price t with ⟨r, tr⟩
    rw [hv] at hfail
    simp only at hfail
    cases r with
    | ok b =>
      cases b with
      | true => exact absurd rfl hfail
      | false => exact ⟨⟨_, rfl⟩, by simp [tokenTrace, hv]⟩
    | error e => exact ⟨⟨_, rfl⟩, by simp [tokenTrace, hv]⟩
  | cons p pre ih =>
    intro post hall
    have hp : (validateClobTokenT price p).1 = .ok true :=
      hall p (List.mem_cons_self _ _)
    obtain ⟨⟨msg, ih1⟩, ih2⟩ := ih post (fun x hx => hall x (List.mem_cons_of_mem _ hx))
    simp only [List.cons_append]
    rw [clobTokensGo]
    rcases hv : validateClobTokenT price p with ⟨r, tr⟩
    rw [hv] at hp
    simp only at hp
    subst hp
    refine ⟨⟨msg, by simpa using ih1⟩, ?_⟩
    simp [tokenTrace, hv, ih2]

/-- C6: with price validation enabled, the chosen market's tokens are
probed in list order; if every token probes a price, validation passes
and the trace covers every token in order; the first token that returns
no price field or errors non-retryably produces
`Freeze{ClobPriceCheckFailed}` carrying the queried-candidates list, and
no later token is probed. -/
theorem C6_token_probe_order (price : PriceOracle) (m : GammaMarket)
    (queried : List String) :
    ((∀ t ∈ m.clob_token_ids, (validateClobTokenT price t).1 = .ok true) →
      (validateClobTokensT price m queried).1 = Option.none ∧
        (validateClobTokensT price m queried).2
          = m.clob_token_ids.flatMap (tokenTrace price)) ∧
    (∀ pre t post, m.clob_token_ids = pre ++ t :: post →
      (∀ t' ∈ pre, (validateClobTokenT price t').1 = .ok true) →
      (validateClobTokenT price t).1 ≠ .ok true →
      (∃ msg, (validateClobTokensT price m queried).1
          = some (.freeze .clobPriceCheckFailed msg queried)) ∧
        (validateClobTokensT price m queried).2
          = (pre ++ [t]).flatMap (tokenTrace price)) := by
  constructor
  · intro hall
    exact clobTokensGo_all_ok m.clob_token_ids hall
  · intro pre t post hsplit hall hfail
    unfold validateClobTokensT
    rw [hsplit]
    exact clobTokensGo_first_fail hfail pre post hall

/-- Price oracle that probes fine except for token `"t2"`, whose
response lacks the `"price"` field. -/
def priceNoFieldT2 : PriceOracle := fun t _ =>
  if t = "t2" then .ok false else .ok true

/-- Witness for C6 at a concrete input: three tokens, the second fails,
the third is never probed. -/
theorem C6_token_probe_order_witness :
    (∃ msg, (validateClobTokensT priceNoFieldT2 (fixMarket "s" ["t1", "t2", "t3"])
        ["q1"]).1 = some (.freeze .clobPriceCheckFailed msg ["q1"])) ∧
      (validateClobTokensT priceNoFieldT2 (fixMarket "s" ["t1", "t2", "t3"])
          ["q1"]).2 = (["t1"] ++ ["t2"]).flatMap (tokenTrace priceNoFieldT2) :=
  (C6_token_probe_order priceNoFieldT2 (fixMarket "s" ["t1", "t2", "t3"]) ["q1"]).2
    ["t1"] "t2" ["t3"] (by decide) (by decide) (by decide)

/-! ## C7 -/

/-- A 400-class error string whose only marker is `"invalid"`: the
resolver's per-token probe retries it, the commit-time probe does not. -/
def priceInvalidOnBUY : PriceOracle := fun _ side =>
  if side = "BUY" then .err "invalid side parameter" else .ok true

/-- C7 counterexample: on an error that looks like an invalid/400-class
response only via the word `"invalid"`, the resolver's probe retries
with `"buy"`, but the controller's commit-time probe returns the error
without the retry — the claim's retry contract does not hold at the
commit-time call site. -/
theorem C7_counterexample :
    validateClobTokenT priceInvalidOnBUY "tok" = (.ok true, ["BUY", "buy"]) ∧
      validateTokensForCommitT priceInvalidOnBUY ("tok", "tok2")
        = (.error "invalid side parameter", ["BUY"]) := by
  refine ⟨by decide, by decide⟩

/-- C7 amended: every price probe calls `get_price` with `"BUY"` first
and issues at most one extra call, never `"BUY"` twice; the resolver's
per-token probe retries once with `"buy"` exactly on errors matching
`400`/`Bad Request`/`invalid`, while the commit-time probe retries only
on `400`/`Bad Request` (not on bare `invalid`); other errors are not
retried. -/
theorem C7_side_fallback (price : PriceOracle) (token : String)
    (tokens : String × String) :
    ((validateClobTokenT price token).2 = ["BUY"] ∨
      ((validateClobTokenT price token).2 = ["BUY", "buy"] ∧
        ∃ e, price token "BUY" = .err e ∧ isLikely400 e = true)) ∧
    ((∃ e, price token "BUY" = .err e ∧ isLikely400 e = true) →
      (validateClobTokenT price token).2 = ["BUY", "buy"]) ∧
    ((validateTokensForCommitT price tokens).2 = ["BUY"] ∨
      ((validateTokensForCommitT price tokens).2 = ["BUY", "buy"] ∧
        ∃ e, price tokens.1 "BUY" = .err e ∧ isCommit400 e = true)) := by
  refine ⟨?_, ?_, ?_⟩
  · unfold validateClobTokenT sideVariants clobTokenGo
    rcases hv : price token "BUY" with b | e
    · left; simp
    · by_cases h4 : isLikely400 e = true
      · right
        simp only [h4, List.isEmpty_cons, Bool.not_false, Bool.and_self, if_true]
        refine ⟨?_, e, rfl, h4⟩
        rw [clobTokenGo]
        rcases price token "buy" with b2 | e2 <;> simp
      · left
        simp [h4]
  · rintro ⟨e, he, h4⟩
    unfold validateClobTokenT sideVariants clobTokenGo
    rw [he]
    simp only [h4, List.isEmpty_cons, Bool.not_false, Bool.and_self, if_true]
    rw [clobTokenGo]
    rcases price token "buy" with b2 | e2 <;> simp
  · unfold validateTokensForCommitT commitSidesGo
    rcases hv : price tokens.1 "BUY" with b | e
    · left; simp
    · by_cases h4 : isCommit400 e = true
      · right
        simp only [h4, if_true]
        refine ⟨?_, e, rfl, h4⟩
        rw [commitSidesGo]
        rcases price tokens.1 "buy" with b2 | e2
        · simp
        · simp only
          split_ifs <;> simp [commitSidesGo]
      · left
        simp [h4]

/-- Controller sessions: states reachable from a fresh controller by a
successful `init` followed by any number of `poll` steps, under
arbitrary per-step environments. -/
inductive Reach (cfg : SwitchConfig) (rcfg : ResolverConfig)
    (series : MarketSeries) : CtrlState → Prop where
  | base (env : PollEnv) (m : ResolvedMarket)
      (hok : resolve env.gamma env.price rcfg series env.nowTs
          (env.fmtRfc env.nowTs) env.nowMs = .ok m) :
      Reach cfg rcfg series (init cfg rcfg series env initialCtrlState).2
  | step (s : CtrlState) (env : PollEnv) (hs : Reach cfg rcfg series s) :
      Reach cfg rcfg series (poll cfg rcfg series env s).2

/-! ## Helper lemmas: controller state evolution -/

theorem readyStats_fields (env : PollEnv) (s : CtrlState) :
    (readyStats env s).current = s.current ∧
      (readyStats env s).next_candidate = s.next_candidate ∧
      (readyStats env s).phase = s.phase ∧
      (readyStats env s).pending_unsubscribe = s.pending_unsubscribe := by
  unfold readyStats
  split
  · split <;> exact ⟨rfl, rfl, rfl, rfl⟩
  · exact ⟨rfl, rfl, rfl, rfl⟩

theorem commitLatency_fields (env : PollEnv) (s : CtrlState) :
    (commitLatency env s).current = s.current ∧
      (commitLatency env s).next_candidate = s.next_candidate ∧
      (commitLatency env s).phase = s.phase ∧
      (commitLatency env s).pending_unsubscribe = s.pending_unsubscribe := by
  unfold commitLatency
  split <;> exact ⟨rfl, rfl, rfl, rfl⟩

/-- State evolution of the `Ok` arm of `poll_prepare`: `current` is
untouched and a held candidate is either kept (with the same market) or
replaced by the freshly resolved market, which then passed the
monotonicity check. -/
theorem pollPrepareOk_spec (cfg : SwitchConfig) (env : PollEnv) (s1 : CtrlState)
    (market : ResolvedMarket) :
    (pollPrepareOk cfg env s1 market).2.current = s1.current ∧
      (∀ nc', (pollPrepareOk cfg env s1 market).2.next_candidate = some nc' →
        (∃ nc, s1.next_candidate = some nc ∧ nc'.market = nc.market) ∨
          (nc'.market = market ∧ isMonotonicAdvance s1 market = true)) := by
  unfold pollPrepareOk
  split_ifs with hm hc
  · exact ⟨rfl, fun nc' h => by cases h⟩
  · split
    · rename_i candidate hcand
      split_ifs with hmin
      · obtain ⟨h1, h2, -, -⟩ := readyStats_fields env
          { s1 with
            next_candidate := some
              { candidate with consecutive_matches := candidate.consecutive_matches + 1 }
            phase := .ready }
        refine ⟨h1, fun nc' h => ?_⟩
        rw [h2] at h
        simp only [Option.some.injEq] at h
        exact Or.inl ⟨candidate, hcand, by rw [← h]⟩
      · refine ⟨rfl, fun nc' h => ?_⟩
        simp only [Option.some.injEq] at h
        exact Or.inl ⟨candidate, hcand, by rw [← h]⟩
    · exact ⟨rfl, fun nc' h => Or.inl ⟨nc', h, rfl⟩⟩
  · refine ⟨rfl, fun nc' h => ?_⟩
    simp only [Option.some.injEq] at h
    refine Or.inr ⟨by rw [← h], ?_⟩
    rw [Bool.not_eq_true', Bool.not_eq_false] at hm
    exact hm

theorem pollPrepare_spec (cfg : SwitchConfig) (rcfg : ResolverConfig)
    (series : MarketSeries) (env : PollEnv) (s : CtrlState) :
    (pollPrepare cfg rcfg series env s).2.current = s.current ∧
      (∀ nc', (pollPrepare cfg rcfg series env s).2.next_candidate = some nc' →
        (∃ nc, s.next_candidate = some nc ∧ nc'.market = nc.market) ∨
          (∃ m, prepResolve rcfg series env s = .ok m ∧ nc'.market = m ∧
            isMonotonicAdvance s m = true)) := by
  unfold pollPrepare
  cases hres : prepResolve rcfg series env s with
  | ok market =>
    obtain ⟨h1, h2⟩ :=
      pollPrepareOk_spec cfg env { s with last_resolve_ok_at := some env.mono } market
    refine ⟨h1, fun nc' h => ?_⟩
    rcases h2 nc' h with ⟨nc, hsn, hm⟩ | ⟨hm, hmono⟩
    · exact Or.inl ⟨nc, hsn, hm⟩
    · exact Or.inr ⟨market, rfl, hm, hmono⟩
  | freeze r msg c => exact ⟨rfl, fun nc' h => Or.inl ⟨nc', h, rfl⟩⟩

/-- `poll_prepare` never emits `SubscribeNew` or `UnsubscribeOld`. -/
theorem pollPrepare_action (cfg : SwitchConfig) (rcfg : ResolverConfig)
    (series : MarketSeries) (env : PollEnv) (s : CtrlState) :
    (pollPrepare cfg rcfg series env s).1 = .none ∨
      ∃ r msg, (pollPrepare cfg rcfg series env s).1 = .freeze r msg := by
  unfold pollPrepare
  cases prepResolve rcfg series env s with
  | ok market =>
    simp only
    unfold pollPrepareOk
    split_ifs with hm hc
    · exact Or.inr ⟨_, _, rfl⟩
    · split
      · split_ifs <;> exact Or.inl rfl
      · exact Or.inl rfl
    · exact Or.inl rfl
  | freeze r msg c => exact Or.inl rfl

/-- The monotonicity invariant of a controller session: any held next
candidate is exactly one bucket ahead of the current market. -/
def MonoInv (s : CtrlState) : Prop :=
  ∀ c nc, s.current = some c → s.next_candidate = some nc →
    nc.market.bucket_start_ts = c.bucket_start_ts + 900

theorem monoInv_pollPrepare {cfg : SwitchConfig} {rcfg : ResolverConfig}
    {series : MarketSeries} {env : PollEnv} {s : CtrlState} (h : MonoInv s) :
    MonoInv (pollPrepare cfg rcfg series env s).2 := by
  intro c nc' hc hnc
  obtain ⟨h1, h2⟩ := pollPrepare_spec cfg rcfg series env s
  rw [h1] at hc
  rcases h2 nc' hnc with ⟨nc, hsn, hm⟩ | ⟨m, -, hm, hmono⟩
  · rw [hm]; exact h c nc hc hsn
  · rw [hm]
    unfold isMonotonicAdvance at hmono
    rw [hc] at hmono
    simpa [BUCKET_SIZE_SECS] using hmono

theorem monoInv_pollCommitting {env : PollEnv} {s : CtrlState} (_h : MonoInv s) :
    MonoInv (pollCommitting env s).2 := by
  intro c nc' hc hnc
  cases hcand : s.next_candidate with
  | none =>
    unfold pollCommitting at hc hnc
    rw [hcand] at hc hnc
    simp only at hc hnc
    cases hnc
  | some next =>
    unfold pollCommitting at hnc
    rw [hcand] at hnc
    simp only at hnc
    rw [(commitLatency_fields env _).2.1] at hnc
    cases hnc

theorem monoInv_pollReady {env : PollEnv} {s : CtrlState} (h : MonoInv s) :
    MonoInv (pollReady env s).2 := by
  unfold pollReady
  split_ifs with hb
  · exact h
  · split
    · split
      · exact monoInv_pollCommitting (fun c nc hc hnc => h c nc hc hnc)
      · exact fun c nc hc hnc => h c nc hc hnc
      · exact fun c nc hc hnc => h c nc hc hnc
    · exact fun c nc hc hnc => h c nc hc hnc

theorem monoInv_pollStable {cfg : SwitchConfig} {rcfg : ResolverConfig}
    {series : MarketSeries} {env : PollEnv} {s : CtrlState} (h : MonoInv s) :
    MonoInv (pollStable cfg rcfg series env s).2 := by
  unfold pollStable
  split_ifs with hp
  · exact monoInv_pollPrepare (fun c nc hc hnc => by cases hnc)
  · exact h

theorem monoInv_poll {cfg : SwitchConfig} {rcfg : ResolverConfig}
    {series : MarketSeries} {env : PollEnv} {s : CtrlState} (h : MonoInv s) :
    MonoInv (poll cfg rcfg series env s).2 := by
  unfold poll
  have hdisp : MonoInv (poll.pollDispatch cfg rcfg series env s).2 := by
    unfold poll.pollDispatch
    split
    · exact monoInv_pollStable h
    · exact monoInv_pollPrepare h
    · exact monoInv_pollReady h
    · exact monoInv_pollCommitting h
  split
  · split_ifs with he
    · exact fun c nc hc hnc => h c nc hc hnc
    · exact hdisp
  · exact hdisp

theorem monoInv_reach {cfg : SwitchConfig} {rcfg : ResolverConfig}
    {series : MarketSeries} {s : CtrlState}
    (h : Reach cfg rcfg series s) : MonoInv s := by
  induction h with
  | base env m hok =>
    unfold init
    rw [hok]
    intro c nc hc hnc
    simp [initialCtrlState] at hnc
  | step s env hs ih => exact monoInv_poll ih

/-- The only way `poll` changes `current` is a commit, which installs
the held candidate's market. -/
theorem poll_current_change (cfg : SwitchConfig) (rcfg : ResolverConfig)
    (series : MarketSeries) (env : PollEnv) (s : CtrlState) :
    (poll cfg rcfg series env s).2.current = s.current ∨
      ∃ nc, s.next_candidate = some nc ∧
        (poll cfg rcfg series env s).2.current = some nc.market := by
  have hcommit : ∀ s2 : CtrlState, (pollCommitting env s2).2.current = s2.current ∨
      ∃ nc, s2.next_candidate = some nc ∧
        (pollCommitting env s2).2.current = some nc.market := by
    intro s2
    unfold pollCommitting
    split
    · exact Or.inl rfl
    · rename_i next hcand
      refine Or.inr ⟨next, hcand, ?_⟩
      rw [(commitLatency_fields env _).1]
  have hdisp : (poll.pollDispatch cfg rcfg series env s).2.current = s.current ∨
      ∃ nc, s.next_candidate = some nc ∧
        (poll.pollDispatch cfg rcfg series env s).2.current = some nc.market := by
    unfold poll.pollDispatch
    split
    · left
      unfold pollStable
      split_ifs with hp
      · exact (pollPrepare_spec cfg rcfg series env _).1
      · rfl
    · exact Or.inl (pollPrepare_spec cfg rcfg series env s).1
    · unfold pollReady
      split_ifs with hb
      · exact Or.inl rfl
      · split
        · split
          · exact hcommit _
          · exact Or.inl rfl
          · exact Or.inl rfl
        · exact Or.inl rfl
    · exact hcommit s
  unfold poll
  split
  · split_ifs with he
    · exact Or.inl rfl
    · exact hdisp
  · exact hdisp

/-- With no pending unsubscribe and phase `Prepare`, `poll` runs
`poll_prepare`. -/
theorem poll_red_prepare (cfg : SwitchConfig) (rcfg : ResolverConfig)
    (series : MarketSeries) (env : PollEnv) (s : CtrlState)
    (hpend : s.pending_unsubscribe = Option.none) (hphase : s.phase = .prepare) :
    poll cfg rcfg series env s = pollPrepare cfg rcfg series env s := by
  unfold poll
  rw [hpend]
  simp only
  unfold poll.pollDispatch
  rw [hphase]

/-- Environment used by concrete controller witnesses. -/
def c1Env : PollEnv :=
  { gamma := gammaBucket900, price := priceAlwaysOk, nowTs := 905, nowMs := 0
    mono := 0, fmtRfc := fun _ => "A", parseRfc := fun _ => Option.none }

/-- A (fabricated) current market with a misaligned bucket start. -/
def resBad5 : ResolvedMarket := { resB900 with bucket_start_ts := 5 }

/-- A `Prepare`-phase state whose current market has bucket start 5, so
the next resolution (bucket 900) is not a monotonic advance. -/
def c1BadState : CtrlState :=
  { initialCtrlState with phase := .prepare, current := some resBad5 }

/-! ## C1 -/

/-- C1: in any controller session (successful init, then polls), a `poll`
step replaces the current market only by one whose `bucket_start_ts` is
exactly `prev + 900`; and in `Prepare`, a successful resolution whose
bucket is not `current + 900` makes `poll` return
`Freeze{MonotonicityViolation}`, clear the next candidate, and remain in
`Prepare`. -/
theorem C1_monotonicity (cfg : SwitchConfig) (rcfg : ResolverConfig)
    (series : MarketSeries) :
    (∀ s env c c', Reach cfg rcfg series s → s.current = some c →
        (poll cfg rcfg series env s).2.current = some c' →
        c' = c ∨ c'.bucket_start_ts = c.bucket_start_ts + 900) ∧
      (∀ s env m c, s.phase = .prepare → s.pending_unsubscribe = Option.none →
        prepResolve rcfg series env s = .ok m → s.current = some c →
        m.bucket_start_ts ≠ c.bucket_start_ts + 900 →
        (poll cfg rcfg series env s).1 = .freeze "MonotonicityViolation"
            ("next.bucket_start=" ++ (⟨intDecimal m.bucket_start_ts⟩ : String) ++
              " is not current+900") ∧
          (poll cfg rcfg series env s).2.next_candidate = Option.none ∧
          (poll cfg rcfg series env s).2.phase = .prepare) := by
  constructor
  · intro s env c c' hreach hc hc'
    rcases poll_current_change cfg rcfg series env s with heq | ⟨nc, hnc, hcm⟩
    · rw [hc] at heq
      rw [heq] at hc'
      exact Or.inl (by cases hc'; rfl)
    · rw [hcm] at hc'
      cases hc'
      exact Or.inr (monoInv_reach hreach c nc hc hnc)
  · intro s env m c hphase hpend hres hc hne
    rw [poll_red_prepare cfg rcfg series env s hpend hphase]
    unfold pollPrepare
    rw [hres]
    simp only
    unfold pollPrepareOk
    have hmono : isMonotonicAdvance { s with last_resolve_ok_at := some env.mono } m
        = false := by
      unfold isMonotonicAdvance
      simp only
      rw [hc]
      simp [BUCKET_SIZE_SECS, hne]
    rw [hmono]
    simp [bumpFreeze, hphase]

/-- Witness for C1 at concrete inputs: a one-step session whose poll
leaves the current market in place, and a fabricated `Prepare` state
whose resolution is not one bucket ahead, which freezes. -/
theorem C1_monotonicity_witness :
    (resB900 = resB900 ∨
        resB900.bucket_start_ts = resB900.bucket_start_ts + 900) ∧
      ((poll defaultSwitchConfig defaultResolverConfig .btc15m c1Env
          c1BadState).1 = .freeze "MonotonicityViolation"
            ("next.bucket_start=" ++ (⟨intDecimal (900 : Int)⟩ : String) ++
              " is not current+900") ∧
        (poll defaultSwitchConfig defaultResolverConfig .btc15m c1Env
          c1BadState).2.next_candidate = Option.none ∧
        (poll defaultSwitchConfig defaultResolverConfig .btc15m c1Env
          c1BadState).2.phase = .prepare) := by
  constructor
  · exact (C1_monotonicity defaultSwitchConfig defaultResolverConfig .btc15m).1
      _ c1Env resB900 resB900
      (Reach.base c1Env resB900 (by decide)) (by decide) (by decide)
  · exact (C1_monotonicity defaultSwitchConfig defaultResolverConfig .btc15m).2
      c1BadState c1Env resB900 resBad5
      (by decide) (by decide) (by decide) (by decide) (by decide)

/-! ## C8 -/

/-- If a `poll_prepare` step moves the phase to `Ready`, the resolution
succeeded, was monotonic, matched the held candidate, and pushed its
consecutive count to at least `min_consecutive`. -/
theorem pollPrepare_ready_inv {cfg : SwitchConfig} {rcfg : ResolverConfig}
    {series : MarketSeries} {env : PollEnv} {s : CtrlState} {a : SwitchAction}
    {s' : CtrlState} (hp : pollPrepare cfg rcfg series env s = (a, s'))
    (hphase : s.phase = .prepare) (hready : s'.phase = .ready) :
    ∃ m c, prepResolve rcfg series env s = .ok m ∧
      isMonotonicAdvance s m = true ∧ s.next_candidate = some c ∧
      isConsistent s m = true ∧
      cfg.min_consecutive ≤ c.consecutive_matches + 1 := by
  unfold pollPrepare at hp
  cases hres : prepResolve rcfg series env s with
  | freeze r msg cands =>
    rw [hres] at hp
    simp only at hp
    injection hp with h1 h2
    subst h2
    rw [show (bumpFreeze s).phase = s.phase from rfl, hphase] at hready
    cases hready
  | ok m =>
    rw [hres] at hp
    simp only at hp
    unfold pollPrepareOk at hp
    split_ifs at hp with hm hc
    · injection hp with h1 h2
      subst h2
      rw [show s.phase = SwitchPhase.prepare from hphase] at hready
      cases hready
    · split at hp
      · rename_i candidate hcand
        split_ifs at hp with hmin
        · refine ⟨m, candidate, rfl, ?_, hcand, hc, hmin⟩
          rw [Bool.not_eq_true', Bool.not_eq_false] at hm
          exact hm
        · injection hp with h1 h2
          subst h2
          rw [show ({ s with
              last_resolve_ok_at := some env.mono
              next_candidate := some { candidate with
                consecutive_matches := candidate.consecutive_matches + 1 } } :
                CtrlState).phase = s.phase from rfl, hphase] at hready
          cases hready
      · injection hp with h1 h2
        subst h2
        rw [show ({ s with last_resolve_ok_at := some env.mono } :
            CtrlState).phase = s.phase from rfl, hphase] at hready
        cases hready
    · injection hp with h1 h2
      subst h2
      rw [show s.phase = SwitchPhase.prepare from hphase] at hready
      cases hready

/-- C8: the phase moves from `Prepare` to `Ready` only when a
successful, monotonic resolution matches the held candidate (same slug
and token ids) and the incremented consecutive count reaches
`min_consecutive`; a monotonic resolution that does not match the held
candidate replaces it with `consecutive_matches = 1`, emits `None`, and
stays in `Prepare`. -/
theorem C8_debounce (cfg : SwitchConfig) (rcfg : ResolverConfig)
    (series : MarketSeries) :
    (∀ s env a s', poll cfg rcfg series env s = (a, s') → s.phase = .prepare →
        s'.phase = .ready →
        ∃ m c, prepResolve rcfg series env s = .ok m ∧
          isMonotonicAdvance s m = true ∧ s.next_candidate = some c ∧
          isConsistent s m = true ∧
          cfg.min_consecutive ≤ c.consecutive_matches + 1) ∧
      (∀ s env m, s.phase = .prepare → s.pending_unsubscribe = Option.none →
        prepResolve rcfg series env s = .ok m →
        isMonotonicAdvance s m = true → isConsistent s m = false →
        (poll cfg rcfg series env s).1 = .none ∧
          (poll cfg rcfg series env s).2.next_candidate
            = some ⟨m, env.mono, 1⟩ ∧
          (poll cfg rcfg series env s).2.phase = .prepare) := by
  constructor
  · intro s env a s' hp hphase hready
    cases hpend : s.pending_unsubscribe with
    | some p =>
      by_cases he : cfg.overlap_secs ≤ env.mono - p.scheduled_at
      · have hfired : poll cfg rcfg series env s
            = (.unsubscribeOld p.tokens p.slug,
                { s with pending_unsubscribe := Option.none }) := by
          unfold poll
          rw [hpend]
          simp only
          rw [if_pos he]
        rw [hfired] at hp
        injection hp with h1 h2
        subst h2
        rw [show ({ s with pending_unsubscribe := Option.none } :
            CtrlState).phase = s.phase from rfl, hphase] at hready
        cases hready
      · have hred : poll cfg rcfg series env s = pollPrepare cfg rcfg series env s := by
          unfold poll
          rw [hpend]
          simp only
          rw [if_neg he]
          unfold poll.pollDispatch
          rw [hphase]
        rw [hred] at hp
        exact pollPrepare_ready_inv hp hphase hready
    | none =>
      rw [poll_red_prepare cfg rcfg series env s hpend hphase] at hp
      exact pollPrepare_ready_inv hp hphase hready
  · intro s env m hphase hpend hres hmono hcons
    rw [poll_red_prepare cfg rcfg series env s hpend hphase]
    unfold pollPrepare
    rw [hres]
    simp only
    unfold pollPrepareOk
    have hm1 : isMonotonicAdvance { s with last_resolve_ok_at := some env.mono } m
        = true := hmono
    have hc1 : isConsistent { s with last_resolve_ok_at := some env.mono } m
        = false := hcons
    rw [hm1, hc1]
    simp [hphase]

/-- A discovery oracle holding only the bucket-1800 market, used when a
controller with current bucket 900 prepares its next market. -/
def gamma1800 : GammaOracle := fun sl =>
  if sl = "btc-updown-15m-1800" then .found (fixMarket "btc-updown-15m-1800" ["u", "d"])
  else .notFound

/-- The `ResolvedMarket` produced from `gamma1800` at `asof = 1805`. -/
def res1800 : ResolvedMarket :=
  { resB900 with slug := "btc-updown-15m-1800"
                 candidate_slugs := ["btc-updown-15m-1800"]
                 bucket_start_ts := 1800 }

/-- Environment for the C8 witness (monotonic next-bucket oracle). -/
def c8Env : PollEnv :=
  { gamma := gamma1800, price := priceAlwaysOk, nowTs := 0, nowMs := 0
    mono := 7, fmtRfc := fun _ => "A", parseRfc := fun _ => Option.none }

/-- `Prepare` state with two consecutive matches already recorded. -/
def c8State2 : CtrlState :=
  { initialCtrlState with
    phase := .prepare
    current := some resB900
    next_candidate := some ⟨res1800, 0, 2⟩ }

/-- `Prepare` state with no candidate yet. -/
def c8State0 : CtrlState :=
  { initialCtrlState with phase := .prepare, current := some resB900 }

/-- Witness for C8 at concrete inputs: a third matching resolution
promotes to `Ready`; a first (non-matching) resolution installs the
candidate with count 1 and stays in `Prepare`. -/
theorem C8_debounce_witness :
    (∃ m c, prepResolve defaultResolverConfig .btc15m c8Env c8State2 = .ok m ∧
        isMonotonicAdvance c8State2 m = true ∧
        c8State2.next_candidate = some c ∧
        isConsistent c8State2 m = true ∧
        defaultSwitchConfig.min_consecutive ≤ c.consecutive_matches + 1) ∧
      ((poll defaultSwitchConfig defaultResolverConfig .btc15m c8Env c8State0).1
          = .none ∧
        (poll defaultSwitchConfig defaultResolverConfig .btc15m c8Env
            c8State0).2.next_candidate = some ⟨res1800, 7, 1⟩ ∧
        (poll defaultSwitchConfig defaultResolverConfig .btc15m c8Env
            c8State0).2.phase = .prepare) := by
  constructor
  · exact (C8_debounce defaultSwitchConfig defaultResolverConfig .btc15m).1
      c8State2 c8Env
      (poll defaultSwitchConfig defaultResolverConfig .btc15m c8Env c8State2).1
      (poll defaultSwitchConfig defaultResolverConfig .btc15m c8Env c8State2).2
      rfl (by decide) (by decide)
  · exact (C8_debounce defaultSwitchConfig defaultResolverConfig .btc15m).2
      c8State0 c8Env res1800 (by decide) (by decide) (by decide) (by decide) (by decide)

/-! ## C10 -/

/-- C10: when the `init` resolution freezes, `init` returns
`SwitchAction::Freeze` and changes nothing but the freeze counter: the
current market, phase, next candidate and pending unsubscribe are
untouched, and `freeze_count` increments by one. -/
theorem C10_init_freeze {cfg : SwitchConfig} {rcfg : ResolverConfig}
    {series : MarketSeries} {env : PollEnv} {s : CtrlState}
    {r : SelectionReason} {msg : String} {cands : List String}
    (h : resolve env.gamma env.price rcfg series env.nowTs (env.fmtRfc env.nowTs)
        env.nowMs = .freeze r msg cands) :
    init cfg rcfg series env s = (.freeze r.debugStr msg, bumpFreeze s) ∧
      (bumpFreeze s).current = s.current ∧ (bumpFreeze s).phase = s.phase ∧
      (bumpFreeze s).next_candidate = s.next_candidate ∧
      (bumpFreeze s).pending_unsubscribe = s.pending_unsubscribe ∧
      (bumpFreeze s).stats.freeze_count = s.stats.freeze_count + 1 := by
  refine ⟨?_, rfl, rfl, rfl, rfl, rfl⟩
  unfold init
  rw [h]

/-- Environment whose discovery oracle has no markets, so `init`
freezes. -/
def c10Env : PollEnv :=
  { gamma := gammaNone, price := priceAlwaysOk, nowTs := 905, nowMs := 0
    mono := 0, fmtRfc := fun _ => "A", parseRfc := fun _ => Option.none }

/-- Witness for C10 at a concrete input: a fresh controller whose init
resolution finds no candidates. -/
theorem C10_init_freeze_witness :
    init defaultSwitchConfig defaultResolverConfig .btc15m c10Env initialCtrlState
        = (.freeze "NoCandidates" "No valid market candidates found",
            bumpFreeze initialCtrlState) ∧
      (bumpFreeze initialCtrlState).current = initialCtrlState.current ∧
      (bumpFreeze initialCtrlState).phase = initialCtrlState.phase ∧
      (bumpFreeze initialCtrlState).next_candidate
        = initialCtrlState.next_candidate ∧
      (bumpFreeze initialCtrlState).pending_unsubscribe
        = initialCtrlState.pending_unsubscribe ∧
      (bumpFreeze initialCtrlState).stats.freeze_count
        = initialCtrlState.stats.freeze_count + 1 :=
  @C10_init_freeze defaultSwitchConfig defaultResolverConfig .btc15m c10Env
    initialCtrlState .noCandidates "No valid market candidates found" [] (by decide)

/-! ## C9 -/

theorem pollCommitting_subscribe {env : PollEnv} {s : CtrlState}
    {tks : String × String} {slg : String} {s' : CtrlState}
    (hp : pollCommitting env s = (.subscribeNew tks slg, s'))
    {old : ResolvedMarket} (hold : s.current = some old) :
    s'.pending_unsubscribe = some ⟨old.clob_token_ids, old.slug, env.mono⟩ := by
  unfold pollCommitting at hp
  cases hcand : s.next_candidate with
  | none =>
    rw [hcand] at hp
    simp only at hp
    injection hp with h1 h2
    cases h1
  | some next =>
    rw [hcand] at hp
    simp only at hp
    injection hp with h1 h2
    subst h2
    rw [(commitLatency_fields env _).2.2.2]
    show commitPending env s = _
    unfold commitPending
    rw [hold]

theorem pollDispatch_subscribe {cfg : SwitchConfig} {rcfg : ResolverConfig}
    {series : MarketSeries} {env : PollEnv} {s : CtrlState}
    {tks : String × String} {slg : String} {s' : CtrlState}
    (hp : poll.pollDispatch cfg rcfg series env s = (.subscribeNew tks slg, s'))
    {old : ResolvedMarket} (hold : s.current = some old) :
    s'.pending_unsubscribe = some ⟨old.clob_token_ids, old.slug, env.mono⟩ := by
  unfold poll.pollDispatch at hp
  cases hph : s.phase with
  | stable =>
    rw [hph] at hp
    simp only at hp
    unfold pollStable at hp
    split_ifs at hp with hsp
    · have ha := congrArg Prod.fst hp
      simp only at ha
      rcases pollPrepare_action cfg rcfg series env
          { s with phase := .prepare, next_candidate := Option.none } with
        hact | ⟨r, msg, hact⟩ <;> rw [ha] at hact <;> cases hact
    · injection hp with h1 h2
      cases h1
  | prepare =>
    rw [hph] at hp
    simp only at hp
    have ha := congrArg Prod.fst hp
    simp only at ha
    rcases pollPrepare_action cfg rcfg series env s with hact | ⟨r, msg, hact⟩ <;>
      rw [ha] at hact <;> cases hact
  | ready =>
    rw [hph] at hp
    simp only at hp
    unfold pollReady at hp
    split_ifs at hp with hb
    · injection hp with h1 h2
      cases h1
    · split at hp
      · split at hp
        · exact pollCommitting_subscribe hp hold
        · injection hp with h1 h2
          cases h1
        · injection hp with h1 h2
          cases h1
      · injection hp with h1 h2
        cases h1
  | committing =>
    rw [hph] at hp
    simp only at hp
    exact pollCommitting_subscribe hp hold

/-- C9 amended: whenever `poll` returns `SubscribeNew` (a commit) while
a current market is held, the new state carries a pending unsubscribe
for the old market's tokens and slug, stamped at this poll's monotonic
instant; and whenever a pending unsubscribe exists and at least
`overlap_secs` have elapsed, `poll` returns exactly
`UnsubscribeOld{old tokens, old slug}` at entry (before phase dispatch)
and clears the pending record, touching nothing else. The original
claim's "first poll after the overlap elapses" guarantee holds only
until the next commit: a second commit before the pending record fires
overwrites it (see the counterexample). -/
theorem C9_overlap_unsubscribe (cfg : SwitchConfig) (rcfg : ResolverConfig)
    (series : MarketSeries) :
    (∀ s env tks slg s' old,
        poll cfg rcfg series env s = (.subscribeNew tks slg, s') →
        s.current = some old →
        s'.pending_unsubscribe = some ⟨old.clob_token_ids, old.slug, env.mono⟩) ∧
      (∀ s env p, s.pending_unsubscribe = some p →
        cfg.overlap_secs ≤ env.mono - p.scheduled_at →
        poll cfg rcfg series env s
          = (.unsubscribeOld p.tokens p.slug,
              { s with pending_unsubscribe := Option.none })) := by
  constructor
  · intro s env tks slg s' old hp hold
    cases hpend : s.pending_unsubscribe with
    | some p =>
      by_cases he : cfg.overlap_secs ≤ env.mono - p.scheduled_at
      · have hfired : poll cfg rcfg series env s
            = (.unsubscribeOld p.tokens p.slug,
                { s with pending_unsubscribe := Option.none }) := by
          unfold poll
          rw [hpend]
          simp only
          rw [if_pos he]
        rw [hfired] at hp
        injection hp with h1 h2
        cases h1
      · have hred : poll cfg rcfg series env s
            = poll.pollDispatch cfg rcfg series env s := by
          unfold poll
          rw [hpend]
          simp only
          rw [if_neg he]
        rw [hred] at hp
        exact pollDispatch_subscribe hp hold
    | none =>
      have hred : poll cfg rcfg series env s
          = poll.pollDispatch cfg rcfg series env s := by
        unfold poll
        rw [hpend]
      rw [hred] at hp
      exact pollDispatch_subscribe hp hold
  · intro s env p hpend he
    unfold poll
    rw [hpend]
    simp only
    rw [if_pos he]

/-- Valid discovery market in a given bucket with its own end date. -/
def c9Mk (slug endD u d : String) : GammaMarket :=
  { fixMarket slug [u, d] with end_date := some endD }

/-- Discovery oracle serving three consecutive buckets. -/
def c9Gamma : GammaOracle := fun s =>
  if s = "btc-updown-15m-900" then .found (c9Mk "btc-updown-15m-900" "E0" "u0" "d0")
  else if s = "btc-updown-15m-1800" then
    .found (c9Mk "btc-updown-15m-1800" "E1" "u1" "d1")
  else if s = "btc-updown-15m-2700" then
    .found (c9Mk "btc-updown-15m-2700" "E2" "u2" "d2")
  else .notFound

/-- RFC-3339 parse oracle for the three end dates. -/
def c9Parse : String → Option Int := fun e =>
  if e = "E0" then some 1800
  else if e = "E1" then some 2700
  else if e = "E2" then some 3600
  else Option.none

/-- Environment of one C9 poll, at wall second `ts` and monotonic
second `mono`. -/
def c9Env (ts : Int) (mono : Nat) : PollEnv :=
  { gamma := c9Gamma, price := priceAlwaysOk, nowTs := ts, nowMs := 0
    mono := mono, fmtRfc := fun _ => "T", parseRfc := c9Parse }

/-- One C9 poll step. -/
def c9Step (ts : Int) (mono : Nat) (s : CtrlState) : SwitchAction × CtrlState :=
  poll defaultSwitchConfig defaultResolverConfig .btc15m (c9Env ts mono) s

def c9s0 : SwitchAction × CtrlState :=
  init defaultSwitchConfig defaultResolverConfig .btc15m (c9Env 905 0) initialCtrlState
def c9s1 : SwitchAction × CtrlState := c9Step 1795 1 c9s0.2
def c9s2 : SwitchAction × CtrlState := c9Step 1796 2 c9s1.2
def c9s3 : SwitchAction × CtrlState := c9Step 1797 3 c9s2.2
def c9s4 : SwitchAction × CtrlState := c9Step 1800 4 c9s3.2
def c9s5 : SwitchAction × CtrlState := c9Step 2695 5 c9s4.2
def c9s6 : SwitchAction × CtrlState := c9Step 2696 6 c9s5.2
def c9s7 : SwitchAction × CtrlState := c9Step 2697 7 c9s6.2
def c9s8 : SwitchAction × CtrlState := c9Step 2700 8 c9s7.2
def c9s9 : SwitchAction × CtrlState := c9Step 2701 19 c9s8.2

/-- C9 counterexample: a session commits at monotonic second 4
(`SubscribeNew` of the bucket-1800 market, pending unsubscribe for the
bucket-900 market scheduled at 4). All polls up to monotonic second 8
happen less than `overlap_secs = 15` after that commit, and at second 8
a second commit overwrites the pending record. The first poll at which
15 seconds have elapsed since the first commit (monotonic second
19 = 4 + 15) therefore returns `None` — not the claimed
`UnsubscribeOld` carrying the old (bucket-900) market's tokens and
slug, which never fires. -/
theorem C9_counterexample :
    c9s4.1 = .subscribeNew ("u1", "d1") "btc-updown-15m-1800" ∧
      c9s4.2.pending_unsubscribe
        = some ⟨("u0", "d0"), "btc-updown-15m-900", 4⟩ ∧
      c9s8.1 = .subscribeNew ("u2", "d2") "btc-updown-15m-2700" ∧
      c9s8.2.pending_unsubscribe
        = some ⟨("u1", "d1"), "btc-updown-15m-1800", 8⟩ ∧
      c9s9.1 = SwitchAction.none ∧
      c9s9.1 ≠ .unsubscribeOld ("u0", "d0") "btc-updown-15m-900" := by
  refine ⟨by decide, by decide, by decide, by decide, by decide, by decide⟩

/-- `Committing` state used by the C9 witness. -/
def c9wCommitState : CtrlState :=
  { initialCtrlState with
    phase := .committing
    current := some resB900
    next_candidate := some ⟨resC4, 0, 3⟩ }

/-- State with a pending unsubscribe used by the C9 witness. -/
def c9wPendingState : CtrlState :=
  { initialCtrlState with
    pending_unsubscribe := some ⟨("x", "y"), "old-slug", 4⟩ }

/-- Witness for C9 (amended) at concrete inputs: a commit schedules the
old market's unsubscribe at the commit instant, and an elapsed pending
record fires exactly once and is cleared. -/
theorem C9_overlap_unsubscribe_witness :
    (poll defaultSwitchConfig defaultResolverConfig .btc15m (c9Env 0 5)
        c9wCommitState).2.pending_unsubscribe
        = some ⟨resB900.clob_token_ids, resB900.slug, 5⟩ ∧
      poll defaultSwitchConfig defaultResolverConfig .btc15m (c9Env 0 19)
          c9wPendingState
        = (.unsubscribeOld ("x", "y") "old-slug",
            { c9wPendingState with pending_unsubscribe := Option.none }) := by
  constructor
  · exact (C9_overlap_unsubscribe defaultSwitchConfig defaultResolverConfig .btc15m).1
      c9wCommitState (c9Env 0 5) resC4.clob_token_ids resC4.slug
      (poll defaultSwitchConfig defaultResolverConfig .btc15m (c9Env 0 5)
        c9wCommitState).2 resB900 (by decide) (by decide)
  · exact (C9_overlap_unsubscribe defaultSwitchConfig defaultResolverConfig .btc15m).2
      c9wPendingState (c9Env 0 19) ⟨("x", "y"), "old-slug", 4⟩ (by decide) (by decide)

/-! ## C2 -/

/-- The acceptance test of the current-bucket loop of `resolve`: the
slug's market was found, passes the structural checks, and `asof` lies
in the strict window of the asof bucket. -/
def acceptCurrent (gamma : GammaOracle) (cfg : ResolverConfig) (asofTs bs : Int)
    (slug : String) : Bool :=
  match gamma slug with
  | .found mk =>
    mk.isValidBinary && mk.active && !mk.closed && mk.enable_order_book &&
      (decide (bs ≤ asofTs) && decide (asofTs < bs + cfg.bucket_size_secs))
  | .notFound => false
  | .apiError _ => false

/-- The acceptance test of the previous-bucket loop of `resolve`: the
slug's market was found and passes `validate_market` (tolerant
window). -/
def acceptPrev (gamma : GammaOracle) (cfg : ResolverConfig) (asofTs : Int)
    (slug : String) : Bool :=
  match gamma slug with
  | .found mk => (validateMarket cfg mk asofTs).isNone
  | .notFound => false
  | .apiError _ => false

theorem tryCurrentSlugs_cases {gamma : GammaOracle} {price : PriceOracle}
    {cfg : ResolverConfig} {asofTs : Int} {u : String} {ms bs : Int} :
    ∀ slugs q t,
      ((tryCurrentSlugs gamma price cfg asofTs u ms bs slugs q t).1 = Option.none ∧
        (∀ sl ∈ slugs, acceptCurrent gamma cfg asofTs bs sl = false) ∧
        (tryCurrentSlugs gamma price cfg asofTs u ms bs slugs q t).2.2 = t ++ slugs) ∨
      (∃ pre sl post, slugs = pre ++ sl :: post ∧
        (∀ x ∈ pre, acceptCurrent gamma cfg asofTs bs x = false) ∧
        acceptCurrent gamma cfg asofTs bs sl = true ∧
        (tryCurrentSlugs gamma price cfg asofTs u ms bs slugs q t).2.2
          = t ++ (pre ++ [sl]) ∧
        ((tryCurrentSlugs gamma price cfg asofTs u ms bs slugs q t).1).isSome
          = true) := by
  intro slugs
  induction slugs with
  | nil => intro q t; exact Or.inl ⟨rfl, by simp, by simp [tryCurrentSlugs]⟩
  | cons slug rest ih =>
    intro q t
    rw [tryCurrentSlugs]
    cases hg : gamma slug with
    | found mk =>
      simp only
      by_cases hstruct :
          (mk.isValidBinary && mk.active && !mk.closed && mk.enable_order_book) = true
      · rw [if_pos hstruct]
        by_cases hwin :
            (decide (bs ≤ asofTs) && decide (asofTs < bs + cfg.bucket_size_secs)) = true
        · rw [if_pos hwin]
          have hacc : acceptCurrent gamma cfg asofTs bs slug = true := by
            unfold acceptCurrent
            rw [hg]
            simp [hstruct, hwin]
          refine Or.inr ⟨[], slug, rest, rfl, by simp, hacc, ?_, ?_⟩ <;>
            split_ifs <;> (try split) <;> simp
        · rw [if_neg hwin]
          have hacc : acceptCurrent gamma cfg asofTs bs slug = false := by
            unfold acceptCurrent
            rw [hg]
            simp only
            rw [(Bool.not_eq_true _).mp hwin, Bool.and_false]
          rcases ih (q ++ [slug]) (t ++ [slug]) with ⟨h1, h2, h3⟩ |
            ⟨pre, sl, post, hsp, hpre, hsl, htr, hsome⟩
          · refine Or.inl ⟨h1, ?_, by rw [h3]; simp⟩
            intro x hx
            rcases List.mem_cons.mp hx with rfl | hx2
            · exact hacc
            · exact h2 x hx2
          · refine Or.inr ⟨slug :: pre, sl, post, by simp [hsp], ?_, hsl,
              by rw [htr]; simp, hsome⟩
            intro x hx
            rcases List.mem_cons.mp hx with rfl | hx2
            · exact hacc
            · exact hpre x hx2
      · rw [if_neg hstruct]
        have hacc : acceptCurrent gamma cfg asofTs bs slug = false := by
          unfold acceptCurrent
          rw [hg]
          simp only
          rw [(Bool.not_eq_true _).mp hstruct, Bool.false_and]
        rcases ih (q ++ [slug]) (t ++ [slug]) with ⟨h1, h2, h3⟩ |
          ⟨pre, sl, post, hsp, hpre, hsl, htr, hsome⟩
        · refine Or.inl ⟨h1, ?_, by rw [h3]; simp⟩
          intro x hx
          rcases List.mem_cons.mp hx with rfl | hx2
          · exact hacc
          · exact h2 x hx2
        · refine Or.inr ⟨slug :: pre, sl, post, by simp [hsp], ?_, hsl,
            by rw [htr]; simp, hsome⟩
          intro x hx
          rcases List.mem_cons.mp hx with rfl | hx2
          · exact hacc
          · exact hpre x hx2
    | notFound =>
      simp only
      have hacc : acceptCurrent gamma cfg asofTs bs slug = false := by
        unfold acceptCurrent
        rw [hg]
      rcases ih q (t ++ [slug]) with ⟨h1, h2, h3⟩ |
        ⟨pre, sl, post, hsp, hpre, hsl, htr, hsome⟩
      · refine Or.inl ⟨h1, ?_, by rw [h3]; simp⟩
        intro x hx
        rcases List.mem_cons.mp hx with rfl | hx2
        · exact hacc
        · exact h2 x hx2
      · refine Or.inr ⟨slug :: pre, sl, post, by simp [hsp], ?_, hsl,
          by rw [htr]; simp, hsome⟩
        intro x hx
        rcases List.mem_cons.mp hx with rfl | hx2
        · exact hacc
        · exact hpre x hx2
    | apiError e =>
      simp only
      have hacc : acceptCurrent gamma cfg asofTs bs slug = false := by
        unfold acceptCurrent
        rw [hg]
      rcases ih q (t ++ [slug]) with ⟨h1, h2, h3⟩ |
        ⟨pre, sl, post, hsp, hpre, hsl, htr, hsome⟩
      · refine Or.inl ⟨h1, ?_, by rw [h3]; simp⟩
        intro x hx
        rcases List.mem_cons.mp hx with rfl | hx2
        · exact hacc
        · exact h2 x hx2
      · refine Or.inr ⟨slug :: pre, sl, post, by simp [hsp], ?_, hsl,
          by rw [htr]; simp, hsome⟩
        intro x hx
        rcases List.mem_cons.mp hx with rfl | hx2
        · exact hacc
        · exact hpre x hx2

theorem tryPrevSlugs_cases {gamma : GammaOracle} {price : PriceOracle}
    {cfg : ResolverConfig} {asofTs : Int} {u : String} {ms bs : Int} :
    ∀ slugs q t,
      ((tryPrevSlugs gamma price cfg asofTs u ms bs slugs q t).1 = Option.none ∧
        (∀ sl ∈ slugs, acceptPrev gamma cfg asofTs sl = false) ∧
        (tryPrevSlugs gamma price cfg asofTs u ms bs slugs q t).2.2 = t ++ slugs) ∨
      (∃ pre sl post, slugs = pre ++ sl :: post ∧
        (∀ x ∈ pre, acceptPrev gamma cfg asofTs x = false) ∧
        acceptPrev gamma cfg asofTs sl = true ∧
        (tryPrevSlugs gamma price cfg asofTs u ms bs slugs q t).2.2
          = t ++ (pre ++ [sl]) ∧
        ((tryPrevSlugs gamma price cfg asofTs u ms bs slugs q t).1).isSome
          = true) := by
  intro slugs
  induction slugs with
  | nil => intro q t; exact Or.inl ⟨rfl, by simp, by simp [tryPrevSlugs]⟩
  | cons slug rest ih =>
    intro q t
    rw [tryPrevSlugs]
    cases hg : gamma slug with
    | found mk =>
      simp only
      cases hvm : validateMarket cfg mk asofTs with
      | some reason =>
        simp only
        have hacc : acceptPrev gamma cfg asofTs slug = false := by
          unfold acceptPrev
          rw [hg]
          simp only
          rw [hvm]
          rfl
        rcases ih (q ++ [slug]) (t ++ [slug]) with ⟨h1, h2, h3⟩ |
          ⟨pre, sl, post, hsp, hpre, hsl, htr, hsome⟩
        · refine Or.inl ⟨h1, ?_, by rw [h3]; simp⟩
          intro x hx
          rcases List.mem_cons.mp hx with rfl | hx2
          · exact hacc
          · exact h2 x hx2
        · refine Or.inr ⟨slug :: pre, sl, post, by simp [hsp], ?_, hsl,
            by rw [htr]; simp, hsome⟩
          intro x hx
          rcases List.mem_cons.mp hx with rfl | hx2
          · exact hacc
          · exact hpre x hx2
      | none =>
        simp only
        have hacc : acceptPrev gamma cfg asofTs slug = true := by
          unfold acceptPrev
          rw [hg]
          simp only
          rw [hvm]
          rfl
        refine Or.inr ⟨[], slug, rest, rfl, by simp, hacc, ?_, ?_⟩ <;>
          split_ifs <;> (try split) <;> simp
    | notFound =>
      simp only
      have hacc : acceptPrev gamma cfg asofTs slug = false := by
        unfold acceptPrev
        rw [hg]
      rcases ih q (t ++ [slug]) with ⟨h1, h2, h3⟩ |
        ⟨pre, sl, post, hsp, hpre, hsl, htr, hsome⟩
      · refine Or.inl ⟨h1, ?_, by rw [h3]; simp⟩
        intro x hx
        rcases List.mem_cons.mp hx with rfl | hx2
        · exact hacc
        · exact h2 x hx2
      · refine Or.inr ⟨slug :: pre, sl, post, by simp [hsp], ?_, hsl,
          by rw [htr]; simp, hsome⟩
        intro x hx
        rcases List.mem_cons.mp hx with rfl | hx2
        · exact hacc
        · exact hpre x hx2
    | apiError e =>
      simp only
      have hacc : acceptPrev gamma cfg asofTs slug = false := by
        unfold acceptPrev
        rw [hg]
      rcases ih q (t ++ [slug]) with ⟨h1, h2, h3⟩ |
        ⟨pre, sl, post, hsp, hpre, hsl, htr, hsome⟩
      · refine Or.inl ⟨h1, ?_, by rw [h3]; simp⟩
        intro x hx
        rcases List.mem_cons.mp hx with rfl | hx2
        · exact hacc
        · exact h2 x hx2
      · refine Or.inr ⟨slug :: pre, sl, post, by simp [hsp], ?_, hsl,
          by rw [htr]; simp, hsome⟩
        intro x hx
        rcases List.mem_cons.mp hx with rfl | hx2
        · exact hacc
        · exact hpre x hx2

theorem tryCurrentSlugs_freeze {gamma : GammaOracle} {price : PriceOracle}
    {cfg : ResolverConfig} {asofTs : Int} {u : String} {ms bs : Int}
    {r : SelectionReason} {msg : String} {c : List String} :
    ∀ slugs q t, (tryCurrentSlugs gamma price cfg asofTs u ms bs slugs q t).1
        = some (.freeze r msg c) →
      r = .clobPriceCheckFailed ∨ r = .validationFailed := by
  intro slugs
  induction slugs with
  | nil => intro q t h; simp [tryCurrentSlugs] at h
  | cons slug rest ih =>
    intro q t h
    rw [tryCurrentSlugs] at h
    split at h
    · split at h
      · split at h
        · split at h
          · split at h
            · rename_i fr heq
              simp only [Option.some.injEq] at h
              obtain ⟨msg2, hmsg⟩ := clobTokensGo_some _ heq
              rw [h] at hmsg
              injection hmsg with h1 h2 h3
              exact Or.inl h1
            · simp only [Option.some.injEq] at h
              exact Or.inr (buildResult_freeze h)
          · simp only [Option.some.injEq] at h
            exact Or.inr (buildResult_freeze h)
        · exact ih _ _ h
      · exact ih _ _ h
    · exact ih _ _ h
    · exact ih _ _ h

theorem tryPrevSlugs_freeze {gamma : GammaOracle} {price : PriceOracle}
    {cfg : ResolverConfig} {asofTs : Int} {u : String} {ms bs : Int}
    {r : SelectionReason} {msg : String} {c : List String} :
    ∀ slugs q t, (tryPrevSlugs gamma price cfg asofTs u ms bs slugs q t).1
        = some (.freeze r msg c) →
      r = .clobPriceCheckFailed ∨ r = .validationFailed := by
  intro slugs
  induction slugs with
  | nil => intro q t h; simp [tryPrevSlugs] at h
  | cons slug rest ih =>
    intro q t h
    rw [tryPrevSlugs] at h
    split at h
    · split at h
      · exact ih _ _ h
      · split at h
        · split at h
          · rename_i fr heq
            simp only [Option.some.injEq] at h
            obtain ⟨msg2, hmsg⟩ := clobTokensGo_some _ heq
            rw [h] at hmsg
            injection hmsg with h1 h2 h3
            exact Or.inl h1
          · simp only [Option.some.injEq] at h
            exact Or.inr (buildResult_freeze h)
        · simp only [Option.some.injEq] at h
          exact Or.inr (buildResult_freeze h)
    · exact ih _ _ h
    · exact ih _ _ h

/-- C2: in every `resolve(series, asof)` call, the issued slug lookups
form a prefix of (current-bucket slugs in pattern order, then — with the
fallback enabled — previous-bucket slugs in pattern order); only slugs
for the asof bucket and the previous bucket are ever queried (never the
next bucket); when the result is `Ok`, the chosen slug is the first one
that validates (everything queried before it failed validation, and
nothing after it was queried); and a `Freeze` result never carries
reason `AmbiguousCandidates`. -/
theorem C2_lookup_order (gamma : GammaOracle) (price : PriceOracle)
    (cfg : ResolverConfig) (series : MarketSeries) (asofTs : Int) (u : String)
    (ms : Int) :
    (cfg.check_adjacent_buckets = true →
      ∃ rest, (resolveT gamma price cfg series asofTs u ms).2 ++ rest
        = currentBucketSlugs cfg series asofTs ++ prevBucketSlugs cfg series asofTs) ∧
    (cfg.check_adjacent_buckets = false →
      ∃ rest, (resolveT gamma price cfg series asofTs u ms).2 ++ rest
        = currentBucketSlugs cfg series asofTs) ∧
    (∀ sl ∈ (resolveT gamma price cfg series asofTs u ms).2,
      sl ∈ currentBucketSlugs cfg series asofTs ∨
        sl ∈ prevBucketSlugs cfg series asofTs) ∧
    (∀ r msg c, (resolveT gamma price cfg series asofTs u ms).1 = .freeze r msg c →
      r ≠ .ambiguousCandidates) ∧
    (∀ m, (resolveT gamma price cfg series asofTs u ms).1 = .ok m →
      (∃ pre sl post, currentBucketSlugs cfg series asofTs = pre ++ sl :: post ∧
        (∀ x ∈ pre, acceptCurrent gamma cfg asofTs (rustBucketStart cfg asofTs) x
          = false) ∧
        acceptCurrent gamma cfg asofTs (rustBucketStart cfg asofTs) sl = true ∧
        (resolveT gamma price cfg series asofTs u ms).2 = pre ++ [sl]) ∨
      ((∀ x ∈ currentBucketSlugs cfg series asofTs,
          acceptCurrent gamma cfg asofTs (rustBucketStart cfg asofTs) x = false) ∧
        ∃ pre sl post, prevBucketSlugs cfg series asofTs = pre ++ sl :: post ∧
          (∀ x ∈ pre, acceptPrev gamma cfg asofTs x = false) ∧
          acceptPrev gamma cfg asofTs sl = true ∧
          (resolveT gamma price cfg series asofTs u ms).2
            = currentBucketSlugs cfg series asofTs ++ (pre ++ [sl]))) := by
  unfold resolveT
  generalize htc : tryCurrentSlugs gamma price cfg asofTs u ms
      (rustBucketStart cfg asofTs) (currentBucketSlugs cfg series asofTs) [] [] = P
  obtain ⟨o, q, t⟩ := P
  have hcase := @tryCurrentSlugs_cases gamma price cfg asofTs u ms
      (rustBucketStart cfg asofTs) (currentBucketSlugs cfg series asofTs) [] []
  rw [htc] at hcase
  simp only [List.nil_append, Option.isSome_none] at hcase
  cases o with
  | some r =>
    simp only
    rcases hcase with ⟨h1, -, -⟩ | ⟨pre, sl, post, hsp, hpre, hsl, htr, -⟩
    · cases h1
    · refine ⟨?_, ?_, ?_, ?_, ?_⟩
      · intro _
        refine ⟨post ++ prevBucketSlugs cfg series asofTs, ?_⟩
        rw [htr, hsp]
        simp
      · intro _
        refine ⟨post, ?_⟩
        rw [htr, hsp]
        simp
      · intro x hx
        rw [htr] at hx
        left
        rw [hsp]
        rcases List.mem_append.mp hx with hx1 | hx2
        · exact List.mem_append_left _ hx1
        · rw [List.mem_singleton] at hx2
          subst hx2
          exact List.mem_append_right _ (List.mem_cons_self _ _)
      · intro r' msg c hr
        subst hr
        rcases tryCurrentSlugs_freeze _ _ _ (show (tryCurrentSlugs gamma price
            cfg asofTs u ms (rustBucketStart cfg asofTs)
            (currentBucketSlugs cfg series asofTs) [] []).1
              = some (.freeze r' msg c) by rw [htc]) with h | h <;> rw [h] <;>
          intro hcon <;> cases hcon
      · intro m hm
        exact Or.inl ⟨pre, sl, post, hsp, hpre, hsl, htr⟩
  | none =>
    simp only
    rcases hcase with ⟨-, hallc, htrc⟩ | ⟨-, -, -, -, -, -, -, hsome⟩
    swap
    · cases hsome
    by_cases hfb : cfg.check_adjacent_buckets = true
    · rw [if_pos hfb]
      generalize htp : tryPrevSlugs gamma price cfg asofTs u ms
          (rustBucketStart cfg asofTs) (prevBucketSlugs cfg series asofTs) q t = P2
      obtain ⟨o2, q2, t2⟩ := P2
      have hcase2 := @tryPrevSlugs_cases gamma price cfg asofTs u ms
          (rustBucketStart cfg asofTs) (prevBucketSlugs cfg series asofTs) q t
      rw [htp] at hcase2
      simp only [Option.isSome_none] at hcase2
      cases o2 with
      | some r2 =>
        simp only
        rcases hcase2 with ⟨h1, -, -⟩ | ⟨pre, sl, post, hsp, hpre, hsl, htr, -⟩
        · cases h1
        · refine ⟨?_, ?_, ?_, ?_, ?_⟩
          · intro _
            refine ⟨post, ?_⟩
            rw [htr, htrc, hsp]
            simp
          · intro hfb'
            rw [hfb'] at hfb
            cases hfb
          · intro x hx
            rw [htr, htrc] at hx
            rcases List.mem_append.mp hx with hx1 | hx2
            · exact Or.inl hx1
            · right
              rw [hsp]
              rcases List.mem_append.mp hx2 with hx3 | hx4
              · exact List.mem_append_left _ hx3
              · rw [List.mem_singleton] at hx4
                subst hx4
                exact List.mem_append_right _ (List.mem_cons_self _ _)
          · intro r' msg c hr
            subst hr
            rcases tryPrevSlugs_freeze _ _ _ (show (tryPrevSlugs gamma price
                cfg asofTs u ms (rustBucketStart cfg asofTs)
                (prevBucketSlugs cfg series asofTs) q t).1
                  = some (.freeze r' msg c) by rw [htp]) with h | h <;> rw [h] <;>
              intro hcon <;> cases hcon
          · intro m hm
            exact Or.inr ⟨hallc, pre, sl, post, hsp, hpre, hsl, by rw [htr, htrc]⟩
      | none =>
        simp only
        rcases hcase2 with ⟨-, -, htr2⟩ | ⟨-, -, -, -, -, -, -, hsome2⟩
        swap
        · cases hsome2
        refine ⟨?_, ?_, ?_, ?_, ?_⟩
        · intro _
          exact ⟨[], by rw [htr2, htrc]; simp⟩
        · intro hfb'
          rw [hfb'] at hfb
          cases hfb
        · intro x hx
          rw [htr2, htrc] at hx
          rcases List.mem_append.mp hx with hx1 | hx2
          · exact Or.inl hx1
          · exact Or.inr hx2
        · intro r' msg c hr
          simp only [ResolveResult.freeze.injEq] at hr
          rw [← hr.1]
          intro hcon
          cases hcon
        · intro m hm
          cases hm
    · rw [if_neg hfb]
      refine ⟨?_, ?_, ?_, ?_, ?_⟩
      · intro hfb'
        exact absurd hfb' hfb
      · intro _
        exact ⟨[], by rw [htrc]; simp⟩
      · intro x hx
        rw [htrc] at hx
        exact Or.inl hx
      · intro r' msg c hr
        simp only [ResolveResult.freeze.injEq] at hr
        rw [← hr.1]
        intro hcon
        cases hcon
      · intro m hm
        cases hm

/-- Resolver configuration with the previous-bucket fallback disabled. -/
def cfgNoFallback : ResolverConfig :=
  { defaultResolverConfig with check_adjacent_buckets := false }

theorem C2_lookup_order_witness :
    (∃ rest, (resolveT gammaBucket900 priceAlwaysOk defaultResolverConfig .btc15m
        905 "A" 0).2 ++ rest
      = currentBucketSlugs defaultResolverConfig .btc15m 905
        ++ prevBucketSlugs defaultResolverConfig .btc15m 905) ∧
    (∃ rest, (resolveT gammaBucket900 priceAlwaysOk cfgNoFallback .btc15m
        905 "A" 0).2 ++ rest
      = currentBucketSlugs cfgNoFallback .btc15m 905) ∧
    SelectionReason.noCandidates ≠ SelectionReason.ambiguousCandidates ∧
    ((∃ pre sl post,
        currentBucketSlugs defaultResolverConfig .btc15m 905 = pre ++ sl :: post ∧
        (∀ x ∈ pre, acceptCurrent gammaBucket900 defaultResolverConfig 905
          (rustBucketStart defaultResolverConfig 905) x = false) ∧
        acceptCurrent gammaBucket900 defaultResolverConfig 905
          (rustBucketStart defaultResolverConfig 905) sl = true ∧
        (resolveT gammaBucket900 priceAlwaysOk defaultResolverConfig .btc15m
          905 "A" 0).2 = pre ++ [sl]) ∨
      ((∀ x ∈ currentBucketSlugs defaultResolverConfig .btc15m 905,
          acceptCurrent gammaBucket900 defaultResolverConfig 905
            (rustBucketStart defaultResolverConfig 905) x = false) ∧
        ∃ pre sl post,
          prevBucketSlugs defaultResolverConfig .btc15m 905 = pre ++ sl :: post ∧
          (∀ x ∈ pre, acceptPrev gammaBucket900 defaultResolverConfig 905 x
            = false) ∧
          acceptPrev gammaBucket900 defaultResolverConfig 905 sl = true ∧
          (resolveT gammaBucket900 priceAlwaysOk defaultResolverConfig .btc15m
            905 "A" 0).2
            = currentBucketSlugs defaultResolverConfig .btc15m 905
              ++ (pre ++ [sl]))) :=
  ⟨(C2_lookup_order gammaBucket900 priceAlwaysOk defaultResolverConfig .btc15m
      905 "A" 0).1 rfl,
   (C2_lookup_order gammaBucket900 priceAlwaysOk cfgNoFallback .btc15m
      905 "A" 0).2.1 rfl,
   (C2_lookup_order gammaNone priceAlwaysOk defaultResolverConfig .btc15m
      905 "A" 0).2.2.2.1 .noCandidates "No valid market candidates found" []
      (by decide),
   (C2_lookup_order gammaBucket900 priceAlwaysOk defaultResolverConfig .btc15m
      905 "A" 0).2.2.2.2 resB900 (by decide)⟩

end PM
